import Mathlib

/-!
Verification model of the portfolio backend (Express + flat JSON files +
MongoDB document store).  The definitions below are a shallow embedding of
the code in src/server.js and src/utils/archiveMessages.js:

* `Json` models the JavaScript values produced by JSON.parse / consumed by
  JSON.stringify.  Numbers are restricted to the integral values this
  repository stores (ids, years, counters, skill levels); the files never
  hold fractional numbers, and floating point is out of scope.
* `stringify` models JSON.stringify(data, null, 2) (the pretty-printer used
  by both saveData implementations), `parse` models JSON.parse (duplicate
  object keys keep their first position and last value, as in JavaScript).
* request handlers are modelled as pure functions from the parsed content
  of the data files (an Option Json per file, none = missing or corrupt
  file, which loadData collapses to null) to a status and the new content.
* the platform primitives jwt.sign, bcrypt.hash, bcrypt.compare,
  Date.parse and getFullYear are opaque to the code under verification and
  are passed in as explicit function arguments.
-/

namespace Portfolio

/-- JSON values as the JS runtime holds them after JSON.parse.  Numbers are
modelled as integers: every number this repository writes into its data
files (timestamp ids, years, levels, counters) is integral. -/
inductive Json where
  | null
  | bool (b : Bool)
  | num (n : Int)
  | str (s : String)
  | arr (elems : List Json)
  | obj (fields : List (String × Json))

mutual

/-- Structural equality test on JSON values (DecidableEq cannot be derived
for the nested inductive, so it is built by hand below). -/
def Json.beq : Json → Json → Bool
  | .null, .null => true
  | .bool a, .bool b => a == b
  | .num a, .num b => a == b
  | .str a, .str b => a == b
  | .arr a, .arr b => Json.beqList a b
  | .obj a, .obj b => Json.beqFields a b
  | _, _ => false

def Json.beqList : List Json → List Json → Bool
  | [], [] => true
  | a :: as, b :: bs => Json.beq a b && Json.beqList as bs
  | _, _ => false

def Json.beqFields : List (String × Json) → List (String × Json) → Bool
  | [], [] => true
  | (k, v) :: as, (k', v') :: bs =>
      k == k' && Json.beq v v' && Json.beqFields as bs
  | _, _ => false

end

mutual

theorem Json.beq_iff : ∀ a b : Json, Json.beq a b = true ↔ a = b
  | .null, b => by cases b <;> simp [Json.beq]
  | .bool x, b => by cases b <;> simp [Json.beq]
  | .num x, b => by cases b <;> simp [Json.beq]
  | .str x, b => by cases b <;> simp [Json.beq]
  | .arr xs, b => by
      cases b <;> simp [Json.beq]
      exact Json.beqList_iff xs _
  | .obj fs, b => by
      cases b <;> simp [Json.beq]
      exact Json.beqFields_iff fs _

theorem Json.beqList_iff : ∀ a b : List Json, Json.beqList a b = true ↔ a = b
  | [], b => by cases b <;> simp [Json.beqList]
  | x :: xs, b => by
      cases b with
      | nil => simp [Json.beqList]
      | cons y ys =>
          simp only [Json.beqList, Bool.and_eq_true, List.cons.injEq]
          exact and_congr (Json.beq_iff x y) (Json.beqList_iff xs ys)

theorem Json.beqFields_iff :
    ∀ a b : List (String × Json), Json.beqFields a b = true ↔ a = b
  | [], b => by cases b <;> simp [Json.beqFields]
  | (k, v) :: xs, b => by
      cases b with
      | nil => simp [Json.beqFields]
      | cons y ys =>
          obtain ⟨k', v'⟩ := y
          simp only [Json.beqFields, Bool.and_eq_true, List.cons.injEq,
            Prod.mk.injEq, beq_iff_eq]
          rw [Json.beq_iff v v', Json.beqFields_iff xs ys, and_assoc]

end

instance : DecidableEq Json := fun a b =>
  decidable_of_iff (Json.beq a b = true) (Json.beq_iff a b)

/-- JS falsiness of a JSON value: null, false, 0 and the empty string are
falsy; every array and object is truthy. -/
def jsFalsy : Json → Bool
  | .null => true
  | .bool b => !b
  | .num n => n == 0
  | .str s => s == ""
  | .arr _ => false
  | .obj _ => false

def jsTruthy (j : Json) : Bool := !jsFalsy j

/-- JS expression `x || d` applied to a loadData result (null on the left
becomes the default, any other falsy parse result too). -/
def jsOr (o : Option Json) (d : Json) : Json :=
  match o with
  | none => d
  | some v => if jsFalsy v then d else v

/-- Property lookup in an object's field list (keys are unique in every
list this model builds, so first match is the JS semantics). -/
def objGet (fields : List (String × Json)) (k : String) : Option Json :=
  match fields with
  | [] => none
  | (k', v) :: rest => if k' = k then some v else objGet rest k

/-- JS property assignment obj[k] = v: an existing key keeps its position
and gets the new value, a new key is appended. -/
def insertKey (fields : List (String × Json)) (k : String) (v : Json) :
    List (String × Json) :=
  match fields with
  | [] => [(k, v)]
  | (k', v') :: rest =>
      if k' = k then (k, v) :: rest else (k', v') :: insertKey rest k v

/-- JS property access o.k: undefined (none) on every non-object. -/
def propGet (j : Json) (k : String) : Option Json :=
  match j with
  | .obj fs => objGet fs k
  | _ => none

/-- Object spread { ...base, ...extra }: later keys overwrite earlier
values in place. -/
def objSpread (base extra : List (String × Json)) : List (String × Json) :=
  extra.foldl (fun acc kv => insertKey acc kv.1 kv.2) base

/-- Spreading a JSON value into an object literal: objects contribute their
fields, everything else this repository spreads is an object. -/
def spreadOf (j : Json) : List (String × Json) :=
  match j with
  | .obj fs => fs
  | _ => []

/-- Membership of a key in a field list (used by the well-formedness
predicate below). -/
def keyMem (k : String) : List (String × Json) → Bool
  | [] => false
  | (k', _) :: rest => k' == k || keyMem k rest

mutual

/-- Well-formed JSON values: every object's keys are pairwise distinct.
These are exactly the values a JS runtime can hold (a JS object cannot
carry a duplicate key), hence exactly the domain of JSON.stringify. -/
def wf : Json → Bool
  | .null => true
  | .bool _ => true
  | .num _ => true
  | .str _ => true
  | .arr xs => wfList xs
  | .obj fs => wfFields fs

def wfList : List Json → Bool
  | [] => true
  | x :: xs => wf x && wfList xs

def wfFields : List (String × Json) → Bool
  | [] => true
  | (k, v) :: fs => !keyMem k fs && wf v && wfFields fs

end

/-! ### The serializer: JSON.stringify(data, null, 2) -/

/-- Indentation: n spaces. -/
def spaces (n : Nat) : List Char := List.replicate n ' '

def digitChar (n : Nat) : Char := Char.ofNat (48 + n)

def hexChar (n : Nat) : Char :=
  if n < 10 then Char.ofNat (48 + n) else Char.ofNat (87 + n)

/-- Decimal digits of a natural number, most significant first (the fuel
argument makes the recursion structural; natToChars supplies enough). -/
def natToCharsCore : Nat → Nat → List Char → List Char
  | _, 0, acc => acc
  | 0, _ + 1, acc => acc
  | n + 1, fuel + 1, acc =>
      natToCharsCore ((n + 1) / 10) fuel (digitChar ((n + 1) % 10) :: acc)

def natToChars (n : Nat) : List Char :=
  if n = 0 then ['0'] else natToCharsCore n n []

/-- Number.prototype.toString of an integral double, as JSON.stringify
prints it (negative zero cannot arise: Int has a single zero). -/
def intToChars (i : Int) : List Char :=
  if i < 0 then '-' :: natToChars i.natAbs else natToChars i.natAbs

/-- JSON.stringify's escaping of one string character: quote and backslash
get a backslash, the named control characters their short escapes, the
remaining control characters a \u00xx escape, everything else is copied. -/
def escChar (c : Char) : List Char :=
  if c = '"' then ['\\', '"']
  else if c = '\\' then ['\\', '\\']
  else if c = '\n' then ['\\', 'n']
  else if c = '\r' then ['\\', 'r']
  else if c = '\t' then ['\\', 't']
  else if c = Char.ofNat 8 then ['\\', 'b']
  else if c = Char.ofNat 12 then ['\\', 'f']
  else if c.toNat < 32 then
    ['\\', 'u', '0', '0', hexChar (c.toNat / 16), hexChar (c.toNat % 16)]
  else [c]

def escapeChars : List Char → List Char
  | [] => []
  | c :: cs => escChar c ++ escapeChars cs

mutual

/-- JSON.stringify(v, null, 2) at current indentation depth ind, as a
character list.  Layout matches V8: composites open with a newline, items
are indented two spaces deeper, the closer is indented at the old depth. -/
def printV (ind : Nat) : Json → List Char
  | .num i => intToChars i
  | .bool true => ['t', 'r', 'u', 'e']
  | .null => ['n', 'u', 'l', 'l']
  | .bool false => ['f', 'a', 'l', 's', 'e']
  | .str s => '"' :: (escapeChars s.data ++ ['"'])
  | .arr [] => ['[', ']']
  | .arr (x :: xs) =>
      '[' :: '\n' :: (spaces (ind + 2) ++ (printV (ind + 2) x ++
        (printElems (ind + 2) xs ++ ('\n' :: (spaces ind ++ [']'])))))
  | .obj [] => ['{', '}']
  | .obj (f :: fs) =>
      '{' :: '\n' :: (spaces (ind + 2) ++ (printField (ind + 2) f ++
        (printFields (ind + 2) fs ++ ('\n' :: (spaces ind ++ ['}'])))))

def printElems (ind : Nat) : List Json → List Char
  | [] => []
  | x :: xs => ',' :: '\n' :: (spaces ind ++ (printV ind x ++ printElems ind xs))

def printField (ind : Nat) : String × Json → List Char
  | (k, v) => '"' :: (escapeChars k.data ++ ('"' :: ':' :: ' ' :: printV ind v))

def printFields (ind : Nat) : List (String × Json) → List Char
  | [] => []
  | f :: fs => ',' :: '\n' :: (spaces ind ++ (printField ind f ++ printFields ind fs))

end

/-- JSON.stringify(v, null, 2). -/
def stringify (v : Json) : String := ⟨printV 0 v⟩

/-! ### The parser: JSON.parse -/

def isWsChar (c : Char) : Bool :=
  c = ' ' || c = '\t' || c = '\n' || c = '\r'

def skipWs : List Char → List Char
  | [] => []
  | c :: cs => if isWsChar c then skipWs cs else c :: cs

def isDigitChar (c : Char) : Bool := '0' ≤ c && c ≤ '9'

def hexVal (c : Char) : Option Nat :=
  if '0' ≤ c && c ≤ '9' then some (c.toNat - 48)
  else if 'a' ≤ c && c ≤ 'f' then some (c.toNat - 87)
  else if 'A' ≤ c && c ≤ 'F' then some (c.toNat - 55)
  else none

/-- Body of a JSON string literal, after the opening quote: the decoded
characters and the input after the closing quote.  Raw control characters
are rejected, the JSON escapes are decoded (a \u escape yields the char of
its code point; the UTF-16 surrogate halves JS would pair are foreign to
Lean chars and never occur in this repository's data). -/
def parseStringBody : List Char → Option (List Char × List Char)
  | [] => none
  | c :: cs =>
    if c = '"' then some ([], cs)
    else if c = '\\' then
      match cs with
      | [] => none
      | e :: cs' =>
        if e = 'u' then
          match cs' with
          | a :: b :: c2 :: d :: cs'' =>
            match hexVal a, hexVal b, hexVal c2, hexVal d with
            | some ha, some hb, some hc, some hd =>
                (parseStringBody cs'').map (fun r =>
                  (Char.ofNat (((ha * 16 + hb) * 16 + hc) * 16 + hd) :: r.1, r.2))
            | _, _, _, _ => none
          | _ => none
        else
          match
            (if e = '"' then some '"'
             else if e = '\\' then some '\\'
             else if e = '/' then some '/'
             else if e = 'b' then some (Char.ofNat 8)
             else if e = 'f' then some (Char.ofNat 12)
             else if e = 'n' then some '\n'
             else if e = 'r' then some '\r'
             else if e = 't' then some '\t'
             else none : Option Char)
          with
          | some dc => (parseStringBody cs').map (fun r => (dc :: r.1, r.2))
          | none => none
    else if c.toNat < 32 then none
    else (parseStringBody cs).map (fun r => (c :: r.1, r.2))

/-- Longest prefix of decimal digits. -/
def takeDigits : List Char → List Char × List Char
  | [] => ([], [])
  | c :: cs =>
    if isDigitChar c then
      let r := takeDigits cs
      (c :: r.1, r.2)
    else ([], c :: cs)

def digitsToNat (acc : Nat) : List Char → Nat
  | [] => acc
  | c :: cs => digitsToNat (acc * 10 + (c.toNat - 48)) cs

/-- A JSON natural-number literal: a nonempty digit run without a leading
zero (JSON.parse rejects 01).  Fractions and exponents are outside this
model; the repository's files hold only integral numbers. -/
def parseNat : List Char → Option (Nat × List Char)
  | cs =>
    match takeDigits cs with
    | ([], _) => none
    | (d :: ds, rest) =>
        if d = '0' && !ds.isEmpty then none
        else some (digitsToNat 0 (d :: ds), rest)

def parseNumber : List Char → Option (Json × List Char)
  | [] => none
  | c :: cs =>
      if c = '-' then (parseNat cs).map (fun r => (.num (-(r.1 : Int)), r.2))
      else (parseNat (c :: cs)).map (fun r => (.num (r.1 : Int), r.2))

/-- Key collision during object construction: JS keeps the first position
and the later value.  The tail built so far has unique keys. -/
def consKey (k : String) (v : Json) (fs : List (String × Json)) :
    List (String × Json) :=
  match objGet fs k with
  | some v' => (k, v') :: fs.filter (fun p => !(p.1 == k))
  | none => (k, v) :: fs

mutual

/-- One JSON value (leading whitespace allowed), returning the rest of the
input. The fuel bounds the recursion; parse passes the input length + 1,
which every terminated JSON text keeps ahead of the recursion depth. -/
def parseVal : Nat → List Char → Option (Json × List Char)
  | 0, _ => none
  | fuel + 1, cs =>
    match skipWs cs with
    | [] => none
    | c :: rest =>
      if c = '"' then (parseStringBody rest).map (fun r => (.str ⟨r.1⟩, r.2))
      else if c = '[' then
        match skipWs rest with
        | [] => none
        | c2 :: r2 =>
            if c2 = ']' then some (.arr [], r2)
            else (parseElems fuel (c2 :: r2)).map (fun t => (.arr t.1, t.2))
      else if c = '{' then
        match skipWs rest with
        | [] => none
        | c2 :: r2 =>
            if c2 = '}' then some (.obj [], r2)
            else (parseFields fuel (c2 :: r2)).map (fun t => (.obj t.1, t.2))
      else if c = 'n' then
        match rest with
        | 'u' :: 'l' :: 'l' :: r => some (.null, r)
        | _ => none
      else if c = 't' then
        match rest with
        | 'r' :: 'u' :: 'e' :: r => some (.bool true, r)
        | _ => none
      else if c = 'f' then
        match rest with
        | 'a' :: 'l' :: 's' :: 'e' :: r => some (.bool false, r)
        | _ => none
      else parseNumber (c :: rest)
  termination_by structural fuel _ => fuel

/-- Comma-separated array elements up to the closing bracket. -/
def parseElems : Nat → List Char → Option (List Json × List Char)
  | 0, _ => none
  | fuel + 1, cs =>
    match parseVal fuel cs with
    | none => none
    | some (v, r) =>
      match skipWs r with
      | ',' :: r' => (parseElems fuel r').map (fun t => (v :: t.1, t.2))
      | ']' :: r' => some ([v], r')
      | _ => none
  termination_by structural fuel _ => fuel

/-- Comma-separated object members up to the closing brace. -/
def parseFields : Nat → List Char → Option (List (String × Json) × List Char)
  | 0, _ => none
  | fuel + 1, cs =>
    match skipWs cs with
    | '"' :: r =>
      match parseStringBody r with
      | none => none
      | some (k, r') =>
        match skipWs r' with
        | ':' :: r'' =>
          match parseVal fuel r'' with
          | none => none
          | some (v, r3) =>
            match skipWs r3 with
            | ',' :: r4 =>
                (parseFields fuel r4).map (fun t => (consKey ⟨k⟩ v t.1, t.2))
            | '}' :: r4 => some ([(⟨k⟩, v)], r4)
            | _ => none
        | _ => none
    | _ => none
  termination_by structural fuel _ => fuel

end

/-- JSON.parse: one value, then only trailing whitespace. -/
def parse (s : String) : Option Json :=
  match parseVal (s.data.length + 1) s.data with
  | some (v, rest) => if (skipWs rest).isEmpty then some v else none
  | none => none

/-! ### The generic record store (loadData / saveData, src/server.js
254-276 and src/utils/archiveMessages.js 4-27) -/

/-- loadData: the parsed content of a file, null (none) when the file is
missing or JSON.parse throws. -/
def loadData (file : Option String) : Option Json :=
  match file with
  | none => none
  | some content => parse content

/-- saveData: the exact bytes JSON.stringify(data, null, 2) writes into
the file (a disk write error, reported as a false return in the code, is
outside this model). -/
def saveData (v : Json) : String := stringify v

/-! ### File-backed CRUD handlers.

The handlers below work on the parsed content of the resource file
(Option Json, none = missing-or-corrupt, which loadData reports as null);
each returns its HTTP outcome and the file content after the request.  A
JS TypeError (calling an array method on a non-array, reading a property
of null) is caught by the handler's try/catch and answered with 500
without saving, which the model renders as (serverError, unchanged). -/

inductive HStatus where
  | ok
  | created
  | badRequest
  | notFound
  | serverError
  deriving DecidableEq, Repr

/-! JS string methods used by the handlers, modelled structurally over the
character list (ASCII case mapping and whitespace; the repository's ids,
usernames and emails are ASCII). -/

/-- s.substring(0, n). -/
def strTake (s : String) (n : Nat) : String := ⟨s.data.take n⟩

def lowerChar (c : Char) : Char :=
  if 'A' ≤ c && c ≤ 'Z' then Char.ofNat (c.toNat + 32) else c

/-- s.toLowerCase(), and the effect of the case-insensitive regex used by
the email lookup. -/
def lowerStr (s : String) : String := ⟨s.data.map lowerChar⟩

/-- s.trim(). -/
def trimStr (s : String) : String :=
  ⟨((s.data.dropWhile isWsChar).reverse.dropWhile isWsChar).reverse⟩

def splitCommaAux (cur : List Char) : List Char → List String
  | [] => [⟨cur.reverse⟩]
  | c :: cs =>
      if c = ',' then ⟨cur.reverse⟩ :: splitCommaAux [] cs
      else splitCommaAux (c :: cur) cs

/-- s.split with the one-character comma separator. -/
def splitComma (s : String) : List String := splitCommaAux [] s.data

/-- Record id as the strict comparison p.id === req.params.id sees it:
only a string-valued id field can equal the (string) path parameter. -/
def recId (j : Json) : Option String :=
  match propGet j "id" with
  | some (.str s) => some s
  | _ => none

/-! The delete/update handlers scan the loaded array with callbacks that
read p.id on each element (filter, find, findIndex).  A null element makes
that property read throw a TypeError, which the handler's catch answers
with 500 and no save; any other element (object or primitive) just yields
the field or undefined for the strict comparison.  The scans below carry
that throw as Except.error and keep the source's evaluation order: find
and findIndex stop at the first match and never touch later elements,
filter touches every element. -/

def filterScan (id : String) : List Json → Except Unit (List Json)
  | [] => .ok []
  | .null :: _ => .error ()
  | e :: es => (filterScan id es).map
      (fun l => if recId e == some id then l else e :: l)

def findScan (id : String) : List Json → Except Unit (Option Json)
  | [] => .ok none
  | .null :: _ => .error ()
  | e :: es => if recId e == some id then .ok (some e) else findScan id es

def findIdxScan (id : String) : List Json → Except Unit (Option Nat)
  | [] => .ok none
  | .null :: _ => .error ()
  | e :: es =>
      if recId e == some id then .ok (some 0)
      else (findIdxScan id es).map (fun r => r.map (fun i => i + 1))

/-- Property assignment target[k] = v: a silent no-op on a primitive
(sloppy mode), field update on an object. -/
def setProp (j : Json) (k : String) (v : Json) : Json :=
  match j with
  | .obj fs => .obj (insertKey fs k v)
  | _ => j

def removeKey (fields : List (String × Json)) (k : String) :
    List (String × Json) :=
  fields.filter (fun p => !(p.1 == k))

/-- Assigning req.body.x, which may be undefined, to an object field:
JSON.stringify drops a key whose value is undefined, so in the stored
value the key is simply absent. -/
def setOptStr (fields : List (String × Json)) (k : String) :
    Option String → List (String × Json)
  | some s => insertKey fields k (.str s)
  | none => removeKey fields k

def optStrField (k : String) : Option String → List (String × Json)
  | none => []
  | some s => [(k, .str s)]

/-- Truthiness of an optional JS string (undefined and the empty string
are falsy). -/
def strTruthy : Option String → Bool
  | none => false
  | some s => s != ""

/-- The !x || x.trim() === unquoted-empty validation used by PUT
/api/projects/:id. -/
def blankStr : Option String → Bool
  | none => true
  | some s => s == "" || trimStr s == ""

/-! #### Projects (src/server.js 280-345, 347-458, 665-679) -/

structure ProjectForm where
  title : Option String := none
  description : Option String := none
  technologies : Option String := none
  githubLink : Option String := none
  liveLink : Option String := none
  existingImage : Option String := none
  /-- filename of a multer-accepted upload, when one was sent -/
  file : Option String := none
  deriving DecidableEq

/-- technologies.split(",").map(trim).filter(Boolean). -/
def splitTech (s : String) : List String :=
  ((splitComma s).map trimStr).filter (fun t => t ≠ "")

def techListJson (o : Option String) : Json :=
  match o with
  | some s => if s ≠ "" then .arr ((splitTech s).map .str) else .arr []
  | none => .arr []

/-- image: req.file ? uploaded path : (req.body.existingImage || null). -/
def imageField (file existing : Option String) : Json :=
  match file with
  | some fn => .str ("/assets/images/" ++ fn)
  | none =>
    match existing with
    | some s => if s ≠ "" then .str s else .null
    | none => .null

def mkNewProject (idStr isoNow : String) (f : ProjectForm) : Json :=
  .obj ([("id", .str idStr)] ++
    optStrField "title" f.title ++
    optStrField "description" f.description ++
    [("technologies", techListJson f.technologies),
     ("image", imageField f.file f.existingImage),
     ("githubLink", .str (f.githubLink.getD "")),
     ("liveLink", .str (f.liveLink.getD "")),
     ("createdAt", .str isoNow)])

/-- POST /api/projects: loadData-or-[], coerce non-arrays to [], push the
new record, save the whole array. -/
def postProject (idStr isoNow : String) (f : ProjectForm) (s : Option Json) :
    HStatus × Option Json :=
  let projects := jsOr s (.arr [])
  let projectsArray := match projects with | .arr xs => xs | _ => []
  (.created, some (.arr (projectsArray ++ [mkNewProject idStr isoNow f])))

/-- The updated record PUT /api/projects/:id builds: spread of the old
record, trimmed required fields, re-split technologies, image from the
upload / the sent existingImage / the old record, updatedAt stamp. -/
def mkUpdatedProject (isoNow : String) (f : ProjectForm) (old : Json) : Json :=
  let b := objSpread (spreadOf old)
    [("title", .str (trimStr (f.title.getD ""))),
     ("description", .str (trimStr (f.description.getD ""))),
     ("technologies", techListJson f.technologies),
     ("githubLink", .str (f.githubLink.getD "")),
     ("liveLink", .str (f.liveLink.getD "")),
     ("updatedAt", .str isoNow)]
  let img : Json :=
    match f.file with
    | some fn => .str ("/assets/images/" ++ fn)
    | none =>
      match f.existingImage with
      | some s =>
          if s ≠ "" && s ≠ "undefined" && s ≠ "null" && trimStr s ≠ "" then .str s
          else jsOr (propGet old "image") .null
      | none => jsOr (propGet old "image") .null
  .obj (insertKey b "image" img)

/-- PUT /api/projects/:id: non-array load is 500, unknown id 404, blank
required fields 400, otherwise replace the record in place and save. -/
def putProject (isoNow id : String) (f : ProjectForm) (s : Option Json) :
    HStatus × Option Json :=
  match jsOr s (.arr []) with
  | .arr xs =>
    match findIdxScan id xs with
    | .error _ => (.serverError, s)
    | .ok none => (.notFound, s)
    | .ok (some i) =>
      if blankStr f.title || blankStr f.description || blankStr f.technologies then
        (.badRequest, s)
      else
        (.ok, some (.arr (xs.set i (mkUpdatedProject isoNow f (xs.getD i .null)))))
  | _ => (.serverError, s)

/-- DELETE /api/projects/:id: filter the id out (a null element makes the
callback's p.id read throw: 500, no save); unchanged length means 404 and
no save. -/
def deleteProject (id : String) (s : Option Json) : HStatus × Option Json :=
  match jsOr s (.arr []) with
  | .arr xs =>
    match filterScan id xs with
    | .error _ => (.serverError, s)
    | .ok filtered =>
        if xs.length = filtered.length then (.notFound, s)
        else (.ok, some (.arr filtered))
  | _ => (.serverError, s)

/-! #### Education (src/server.js 716-764, 766-831, 833-858) -/

structure EducationForm where
  year : Option String := none
  title : Option String := none
  institution : Option String := none
  description : Option String := none
  highlights : Option String := none
  skills : Option String := none
  isCurrent : Option String := none
  certificate : Option String := none
  file : Option String := none
  deriving DecidableEq

/-- parseInt(s): optional leading whitespace and sign, then leading
digits; no digit gives NaN, which JSON.stringify later renders as null,
so the model carries it as Json.null. -/
def jsParseInt (s : String) : Json :=
  let core : List Char → Json := fun cs =>
    match takeDigits cs with
    | ([], _) => .null
    | (ds, _) => .num (digitsToNat 0 ds)
  match skipWs s.data with
  | '-' :: rest =>
      (match takeDigits rest with
       | ([], _) => Json.null
       | (ds, _) => .num (-(digitsToNat 0 ds : Int)))
  | '+' :: rest => core rest
  | rest => core rest

/-- highlights / skills form fields: try JSON.parse, fall back to a comma
split (without filtering empties), undefined or empty gives []. -/
def parseListField (o : Option String) : Json :=
  match o with
  | none => .arr []
  | some s =>
    if s = "" then .arr []
    else
      match parse s with
      | some v => v
      | none => .arr ((splitComma s).map (fun h => .str (trimStr h)))

def mkEducationEntry (idStr isoNow : String) (f : EducationForm) : Json :=
  .obj ([("id", .str idStr),
    ("year", match f.year with | none => Json.null | some s => jsParseInt s)] ++
    optStrField "title" f.title ++
    optStrField "institution" f.institution ++
    [("description", .str (f.description.getD "")),
     ("highlights", parseListField f.highlights),
     ("skills", parseListField f.skills),
     ("isCurrent", .bool (f.isCurrent == some "true")),
     ("createdAt", .str isoNow)] ++
    (match f.file with
     | some fn => [("certificate", .str ("/assets/certificates/" ++ fn))]
     | none => []))

/-- POST /api/education: push onto the loaded array (a truthy non-array
load makes push throw: 500, nothing saved). -/
def postEducation (idStr isoNow : String) (f : EducationForm) (s : Option Json) :
    HStatus × Option Json :=
  match jsOr s (.arr []) with
  | .arr xs => (.ok, some (.arr (xs ++ [mkEducationEntry idStr isoNow f])))
  | _ => (.serverError, s)

def mkUpdatedEducation (isoNow : String) (f : EducationForm) (old : Json) : Json :=
  let b := objSpread (spreadOf old)
    [("year", match f.year with | none => Json.null | some s => jsParseInt s)]
  let b := setOptStr b "title" f.title
  let b := setOptStr b "institution" f.institution
  let b := insertKey b "description" (.str (f.description.getD ""))
  let b := insertKey b "highlights" (parseListField f.highlights)
  let b := insertKey b "skills" (parseListField f.skills)
  let b := insertKey b "isCurrent" (.bool (f.isCurrent == some "true"))
  let b := insertKey b "updatedAt" (.str isoNow)
  match f.file with
  | some fn => .obj (insertKey b "certificate" (.str ("/assets/certificates/" ++ fn)))
  | none =>
    match f.certificate with
    | some cert =>
        if cert ≠ "" && cert ≠ "undefined" then .obj (insertKey b "certificate" (.str cert))
        else .obj b
    | none => .obj b

/-- PUT /api/education/:id. -/
def putEducation (isoNow id : String) (f : EducationForm) (s : Option Json) :
    HStatus × Option Json :=
  match jsOr s (.arr []) with
  | .arr xs =>
    match findIdxScan id xs with
    | .error _ => (.serverError, s)
    | .ok none => (.notFound, s)
    | .ok (some i) =>
        (.ok, some (.arr (xs.set i (mkUpdatedEducation isoNow f (xs.getD i .null)))))
  | _ => (.serverError, s)

/-- DELETE /api/education/:id: find first (404 when absent), then filter
and save (the certificate unlink on disk is outside the file model). -/
def deleteEducation (id : String) (s : Option Json) : HStatus × Option Json :=
  match jsOr s (.arr []) with
  | .arr xs =>
    match findScan id xs with
    | .error _ => (.serverError, s)
    | .ok none => (.notFound, s)
    | .ok (some _) =>
        match filterScan id xs with
        | .error _ => (.serverError, s)
        | .ok filtered => (.ok, some (.arr filtered))
  | _ => (.serverError, s)

/-! #### Technologies (src/server.js 861-924) — same skills.json file,
read as a bare array -/

/-- The record literal with a body spread used by POST /api/technologies,
POST /api/skills and POST /api/messages: generated id first, then the
request body's fields, then the timestamp. -/
def mkSkillRecord (idStr isoNow : String) (body : List (String × Json)) : Json :=
  .obj (insertKey (objSpread [("id", .str idStr)] body) "createdAt" (.str isoNow))

def mkUpdatedRecord (isoNow : String) (body : List (String × Json)) (old : Json) :
    Json :=
  .obj (insertKey (objSpread (spreadOf old) body) "updatedAt" (.str isoNow))

/-- POST /api/technologies: push onto the load (push on the
skills-wrapper object throws: 500). -/
def postTechnology (idStr isoNow : String) (body : List (String × Json))
    (s : Option Json) : HStatus × Option Json :=
  match jsOr s (.arr []) with
  | .arr xs => (.ok, some (.arr (xs ++ [mkSkillRecord idStr isoNow body])))
  | _ => (.serverError, s)

/-- PUT /api/technologies/:id. -/
def putTechnology (isoNow id : String) (body : List (String × Json))
    (s : Option Json) : HStatus × Option Json :=
  match jsOr s (.arr []) with
  | .arr xs =>
    match findIdxScan id xs with
    | .error _ => (.serverError, s)
    | .ok none => (.notFound, s)
    | .ok (some i) =>
        (.ok, some (.arr (xs.set i (mkUpdatedRecord isoNow body (xs.getD i .null)))))
  | _ => (.serverError, s)

/-- DELETE /api/technologies/:id: loads skills.json as an array but saves
a skills-wrapper object around the filtered list (the shape oddity the
spec calls out). -/
def deleteTechnology (id : String) (s : Option Json) : HStatus × Option Json :=
  match jsOr s (.arr []) with
  | .arr xs =>
    match filterScan id xs with
    | .error _ => (.serverError, s)
    | .ok filtered =>
        if xs.length = filtered.length then (.notFound, s)
        else (.ok, some (.obj [("skills", .arr filtered)]))
  | _ => (.serverError, s)

/-! #### Skills (src/server.js 1051-1137) — skills.json as the
skills-wrapper object -/

/-- POST /api/skills: default wrapper on a falsy load, push into
skills.skills (a missing or non-array skills property throws: 500). -/
def postSkill (idStr isoNow : String) (body : List (String × Json))
    (s : Option Json) : HStatus × Option Json :=
  match jsOr s (.obj [("skills", .arr [])]) with
  | .obj fs =>
    match objGet fs "skills" with
    | some (.arr xs) =>
        (.ok, some (.obj (insertKey fs "skills"
          (.arr (xs ++ [mkSkillRecord idStr isoNow body])))))
    | _ => (.serverError, s)
  | _ => (.serverError, s)

/-- PUT /api/skills/:id: !skills || !skills.skills answers 404; findIndex
miss answers 404; otherwise the record is replaced inside the wrapper. -/
def putSkill (isoNow id : String) (body : List (String × Json))
    (s : Option Json) : HStatus × Option Json :=
  match s with
  | none => (.notFound, s)
  | some skills =>
    if jsFalsy skills then (.notFound, s)
    else
      match skills with
      | .obj fs =>
        match objGet fs "skills" with
        | none => (.notFound, s)
        | some sv =>
          if jsFalsy sv then (.notFound, s)
          else
            match sv with
            | .arr xs =>
              match findIdxScan id xs with
              | .error _ => (.serverError, s)
              | .ok none => (.notFound, s)
              | .ok (some i) =>
                  (.ok, some (.obj (insertKey fs "skills"
                    (.arr (xs.set i (mkUpdatedRecord isoNow body (xs.getD i .null)))))))
            | _ => (.serverError, s)
      | _ => (.notFound, s)

/-- DELETE /api/skills/:id: same guards, then save a fresh wrapper around
the filtered list. -/
def deleteSkill (id : String) (s : Option Json) : HStatus × Option Json :=
  match s with
  | none => (.notFound, s)
  | some skills =>
    if jsFalsy skills then (.notFound, s)
    else
      match skills with
      | .obj fs =>
        match objGet fs "skills" with
        | none => (.notFound, s)
        | some sv =>
          if jsFalsy sv then (.notFound, s)
          else
            match sv with
            | .arr xs =>
              match filterScan id xs with
              | .error _ => (.serverError, s)
              | .ok filtered =>
                  if filtered.length = xs.length then (.notFound, s)
                  else (.ok, some (.obj [("skills", .arr filtered)]))
            | _ => (.serverError, s)
      | _ => (.notFound, s)

/-! #### Messages (src/server.js 1172-1207, 1320-1353) -/

/-- POST /api/messages: unshift {id, ...body, createdAt, read:false}
(unshift on a truthy non-array throws: 500). -/
def postMessage (idStr isoNow : String) (body : List (String × Json))
    (s : Option Json) : HStatus × Option Json :=
  match jsOr s (.arr []) with
  | .arr xs =>
      let m := .obj (insertKey (insertKey (objSpread [("id", .str idStr)] body)
        "createdAt" (.str isoNow)) "read" (.bool false))
      (.created, some (.arr (m :: xs)))
  | _ => (.serverError, s)

/-- PUT /api/messages/:id/read: set read and readAt on the found record. -/
def putMessageRead (isoNow id : String) (s : Option Json) :
    HStatus × Option Json :=
  match jsOr s (.arr []) with
  | .arr xs =>
    match findIdxScan id xs with
    | .error _ => (.serverError, s)
    | .ok none => (.notFound, s)
    | .ok (some i) =>
        let m := setProp (setProp (xs.getD i .null) "read" (.bool true))
          "readAt" (.str isoNow)
        (.ok, some (.arr (xs.set i m)))
  | _ => (.serverError, s)

/-- DELETE /api/messages/:id. -/
def deleteMessage (id : String) (s : Option Json) : HStatus × Option Json :=
  match jsOr s (.arr []) with
  | .arr xs =>
    match filterScan id xs with
    | .error _ => (.serverError, s)
    | .ok filtered =>
        if xs.length = filtered.length then (.notFound, s)
        else (.ok, some (.arr filtered))
  | _ => (.serverError, s)

/-- GET /api/projects (src/server.js 280-289): loadData, then answer the
parsed value when it is an array and [] in every other case; nothing in
the body can throw, so the catch's 500 is never produced, and the model
is total with status 200. -/
def getProjects (file : Option String) : Nat × Json :=
  match loadData file with
  | some (.arr xs) => (200, .arr xs)
  | _ => (200, .arr [])

/-! ### Authentication and the password-reset flow (src/server.js
1356-1502, 1505-1582, 1585-1613).

jwt.sign, bcrypt.hash and bcrypt.compare are library primitives; the
model passes them in.  jwt.sign's output depends on the payload and on
the clock (iat/exp claims), so the signing function takes the current
time; the handlers only ever call it with a one-hour expiry. -/

/-- The two payload shapes this server signs. -/
inductive JwtPayload where
  | reset (userId email : String)
  | login (userId username : String)
  deriving DecidableEq

structure CryptoModel where
  /-- jwt.sign(payload, JWT_SECRET, expiresIn seconds) at a clock value. -/
  jwtSign : JwtPayload → Nat → Int → String
  bcryptHash : String → String
  bcryptCompare : String → String → Bool

/-- A User document (the MongoDB model at src/server.js 106-128);
resetToken/resetTokenExpires are unset (none) until a reset is
requested. -/
structure User where
  id : String
  username : String
  email : String
  password : String
  resetToken : Option String := none
  resetTokenExpires : Option Int := none
  deriving DecidableEq

inductive LoginResult where
  | badRequest
  | invalidCredentials (errorType : String)
  | success (token : String)
  deriving DecidableEq

/-- POST /api/login: exact-username lookup, bcrypt comparison, then a
signed {userId, username} token with a 1-hour expiry. -/
def login (c : CryptoModel) (now : Int) (username password : String)
    (users : List User) : LoginResult :=
  if username = "" || password = "" then .badRequest
  else
    match users.find? (fun u => u.username == username) with
    | none => .invalidCredentials "username_not_found"
    | some u =>
      if c.bcryptCompare password u.password then
        .success (c.jwtSign (.login u.id u.username) 3600 now)
      else .invalidCredentials "incorrect_password"

inductive ReqResult where
  | badRequest
  | notFound
  /-- 200 with the generic success message; the argument is the reset URL
  that went into the email. -/
  | emailSent (url : String)
  /-- sendMail threw: 500, but the token was already persisted. -/
  | emailFailed (url : String)
  deriving DecidableEq

def isUriUnreserved (c : Char) : Bool :=
  c.isAlphanum || c = '-' || c = '_' || c = '.' || c = '!' ||
    c = '~' || c = '*' || c = '\'' || c = '(' || c = ')'

def hexUpper (n : Nat) : Char :=
  if n < 10 then Char.ofNat (48 + n) else Char.ofNat (55 + n)

def pctBytes : List UInt8 → List Char
  | [] => []
  | b :: bs => '%' :: hexUpper (b.toNat / 16) :: hexUpper (b.toNat % 16) :: pctBytes bs

def encodeChars : List Char → List Char
  | [] => []
  | c :: cs =>
      (if isUriUnreserved c then [c] else pctBytes (String.toUTF8 ⟨[c]⟩).toList) ++
        encodeChars cs

def encodeURIComponent (s : String) : String := ⟨encodeChars s.data⟩

/-- The short reset URL: only the first 64 characters of the token are
embedded (src/server.js 1385). -/
def resetUrlFor (tok : String) : String :=
  "http://localhost:3001/reset-password.html?t=" ++ encodeURIComponent (strTake tok 64)

/-! The email lookup (src/server.js 1364) is
findOne with the anchored case-insensitive regular expression built from
the RAW submitted email: new RegExp of the concatenation of a caret, the
email and a dollar, with the i flag — the email is NOT escaped, so its
regex metacharacters keep their pattern meaning.  The embedding below
covers patterns made of plain characters and the dot wildcard; an email
holding any other metacharacter builds a further-reaching or even
ill-formed pattern (the RegExp constructor then throws, answered 500) and
is outside the declared domain, which the theorems state as a
hypothesis.  Case folding is ASCII, as everywhere in this model. -/

/-- The characters the regex embedding treats as literals: everything
that is not a JS RegExp metacharacter. -/
def regexPlainChar (c : Char) : Bool :=
  !(c = '.' || c = '*' || c = '+' || c = '?' || c = '(' || c = ')' ||
    c = '[' || c = ']' || c = '{' || c = '}' || c = '|' || c = '\\' ||
    c = '^' || c = '$')

/-- One pattern atom against one subject character under the i flag: a
dot matches anything except a line terminator, a plain character matches
case-insensitively. -/
def regexCharMatch (p c : Char) : Bool :=
  if p = '.' then !(c = '\n' || c = '\r' || c = '\u2028' || c = '\u2029')
  else lowerChar p == lowerChar c

/-- The anchored test: caret and dollar force the pattern (the raw email)
to consume the whole subject, one atom per character. -/
def emailRegexMatch (pat s : List Char) : Bool :=
  match pat, s with
  | [], [] => true
  | p :: ps, c :: cs => regexCharMatch p c && emailRegexMatch ps cs
  | _, _ => false

/-- POST /api/auth/request-password-reset: regex email lookup as above;
404 on a miss; otherwise sign a 1-hour {userId, email} token, store its
bcrypt hash and a now+1h expiry on that account, and email a URL holding
the token's first 64 characters. -/
def requestPasswordReset (c : CryptoModel) (now : Int) (emailOk : Bool)
    (email : String) (users : List User) : ReqResult × List User :=
  if email = "" then (.badRequest, users)
  else
    match users.find? (fun u => emailRegexMatch email.data u.email.data) with
    | none => (.notFound, users)
    | some u =>
      let resetToken := c.jwtSign (.reset u.id u.email) 3600 now
      let hashedToken := c.bcryptHash resetToken
      let users' := users.map (fun v =>
        if v.id = u.id then
          { v with resetToken := some hashedToken,
                   resetTokenExpires := some (now + 3600000) }
        else v)
      ((if emailOk then .emailSent (resetUrlFor resetToken)
        else .emailFailed (resetUrlFor resetToken)), users')

inductive ResetResult where
  | badRequest
  | invalidOrExpiredToken
  | tokenExpired
  | success
  deriving DecidableEq

/-- The Mongo query User.find with resetToken $exists and
resetTokenExpires $gt now (src/server.js 1515-1518). -/
def resetCandidates (now : Int) (users : List User) : List User :=
  users.filter (fun u => u.resetToken.isSome &&
    (match u.resetTokenExpires with
     | some e => decide (now < e)
     | none => false))

/-- The matching loop: for each candidate regenerate a fresh signed token
from that account's userId and email and compare its first 64 characters
with the submitted truncated token (src/server.js 1526-1550). -/
def findMatchedUser (c : CryptoModel) (now : Int) (token : String)
    (users : List User) : Option User :=
  (resetCandidates now users).find?
    (fun u => strTake (c.jwtSign (.reset u.id u.email) 3600 now) 64 == token)

/-- The post-match guard !resetToken || !resetTokenExpires || now >
resetTokenExpires (src/server.js 1559): an empty-string resetToken is
falsy in JS, a stored Date is always truthy. -/
def matchedTokenExpired (now : Int) (u : User) : Bool :=
  (match u.resetToken with | none => true | some t => t == "") ||
    u.resetTokenExpires.isNone ||
    (match u.resetTokenExpires with | some e => decide (e < now) | none => true)

/-- POST /api/auth/reset-password. -/
def resetPassword (c : CryptoModel) (now : Int) (token password : String)
    (users : List User) : ResetResult × List User :=
  if token = "" || password = "" then (.badRequest, users)
  else
    match findMatchedUser c now token users with
    | none => (.invalidOrExpiredToken, users)
    | some u =>
      if matchedTokenExpired now u then (.tokenExpired, users)
      else
        let users' := users.map (fun v =>
          if v.id = u.id then
            { v with password := c.bcryptHash password,
                     resetToken := none, resetTokenExpires := none }
          else v)
        (.success, users')

/-! ### Message archival (src/utils/archiveMessages.js 29-69).

The job reads and writes whole files; files are modelled by name as
parsed contents.  Date parsing (new Date(string).getTime()) and
getFullYear are platform primitives passed in; the 30-day cutoff
now.setDate(now.getDate() - 30) is 30 calendar days, i.e. 30*86400000 ms
(daylight-saving shifts are outside the model). -/

def archiveName (year : Int) : String :=
  "message-archive-" ++ toString year ++ ".json"

/-- new Date(message.createdAt): a string goes through the date parser, a
number is already a millisecond timestamp, null coerces to the epoch
(new Date(null) is time 0) and a boolean to 0 or 1 ms — all valid dates —
while a missing field (undefined) is an invalid date, whose NaN
comparison sends the message to currentMessages.  A composite createdAt
(array or object) goes through JS string coercion before date parsing;
it is outside the declared domain and excluded by hypothesis in the
archival theorem. -/
def msgCreatedAtVal (parseDate : String → Option Int) (m : Json) : Option Int :=
  match propGet m "createdAt" with
  | some (.str s) => parseDate s
  | some (.num n) => some n
  | some .null => some 0
  | some (.bool b) => some (if b then 1 else 0)
  | _ => none

/-- The declared-domain marker for a message: its createdAt, when
present, is not a composite value. -/
def createdAtSimple (m : Json) : Bool :=
  match propGet m "createdAt" with
  | some (.arr _) => false
  | some (.obj _) => false
  | _ => true

/-- messageDate < thirtyDaysAgo && message.read. -/
def msgIsOld (parseDate : String → Option Int) (cutoff : Int) (m : Json) : Bool :=
  (match msgCreatedAtVal parseDate m with
   | some d => decide (d < cutoff)
   | none => false) &&
  (match propGet m "read" with
   | some v => jsTruthy v
   | none => false)

/-- archiveOldMessages: partition the active collection, no-op when
nothing is old, otherwise append the old messages to the current year's
archive file and overwrite messages.json with the rest.  A truthy
non-array in either file makes reduce/push throw before any save, and so
does a null element of the collection (the reduce callback's property
read message.createdAt throws a TypeError); the catch ends the run with
no file written. -/
def archiveOldMessages (parseDate : String → Option Int) (yearOf : Int → Int)
    (now : Int) (files : String → Option Json) : String → Option Json :=
  match jsOr (files "messages.json") (.arr []) with
  | .arr ms =>
    if ms.contains .null then files
    else
    let cutoff := now - 30 * 86400000
    let oldMessages := ms.filter (msgIsOld parseDate cutoff)
    let currentMessages := ms.filter (fun m => !msgIsOld parseDate cutoff m)
    if oldMessages.isEmpty then files
    else
      let af := archiveName (yearOf now)
      match jsOr (files af) (.arr []) with
      | .arr archived =>
          fun name =>
            if name = af then some (.arr (archived ++ oldMessages))
            else if name = "messages.json" then some (.arr currentMessages)
            else files name
      | _ => files
  | _ => files

/-! ### Concrete fixtures used by the witnesses (a deterministic signer
and a small account table; bcryptHash is modelled deterministically,
which only strengthens the witnesses' evaluation). -/

def cW : CryptoModel :=
  { jwtSign := fun p _ _ =>
      match p with
      | .reset a b => "R:" ++ a ++ ":" ++ b
      | .login a b => "L:" ++ a ++ ":" ++ b,
    bcryptHash := fun s => "H:" ++ s,
    bcryptCompare := fun p h => h == "H:" ++ p }

def uW : User :=
  { id := "u1", username := "admin", email := "a@b.c", password := "H:admin123",
    resetToken := some "stored-hash", resetTokenExpires := some 100 }

/-- uW with an already-passed resetTokenExpires. -/
def uExp : User := { uW with resetTokenExpires := some 10 }

/-- An account whose address "ab@cd" is matched by the unescaped regex a
submitted "a.@cd" builds, although the two addresses differ. -/
def uE4 : User :=
  { id := "u9", username := "eve", email := "ab@cd", password := "H:pw" }

/-! ### Theorems -/

/-- Unfolding of membership in the consume endpoint's Mongo candidate
query: an account is a candidate exactly when its resetToken exists and
its resetTokenExpires is set and strictly in the future. -/
theorem mem_resetCandidates (now : Int) (users : List User) (u : User) :
    u ∈ resetCandidates now users ↔
      u ∈ users ∧ u.resetToken.isSome = true ∧
        ∃ e, u.resetTokenExpires = some e ∧ now < e := by
  simp only [resetCandidates, List.mem_filter, Bool.and_eq_true]
  constructor
  · rintro ⟨hm, htok, hexp⟩
    refine ⟨hm, htok, ?_⟩
    cases he : u.resetTokenExpires with
    | none => rw [he] at hexp; simp at hexp
    | some e =>
        rw [he] at hexp
        exact ⟨e, rfl, by simpa using hexp⟩
  · rintro ⟨hm, htok, e, he, hlt⟩
    exact ⟨hm, htok, by rw [he]; simpa using hlt⟩

/-- C1: on POST /api/auth/reset-password with truncated token t, the
candidate set examined is exactly the accounts with a resetToken set and
an unexpired resetTokenExpires; the selected target is a candidate whose
freshly regenerated signed token over that account's userId and email has
t as its first 64 characters; no match means the InvalidOrExpiredToken
failure with every account unchanged, and no match happens exactly when
no candidate's regenerated prefix equals t. -/
theorem resetPassword_candidate_matching (c : CryptoModel) (now : Int)
    (t pw : String) (users : List User) (ht : t ≠ "") (hp : pw ≠ "") :
    (∀ u : User, u ∈ resetCandidates now users ↔
        u ∈ users ∧ u.resetToken.isSome = true ∧
          ∃ e, u.resetTokenExpires = some e ∧ now < e) ∧
    (∀ u : User, findMatchedUser c now t users = some u →
        u ∈ resetCandidates now users ∧
          strTake (c.jwtSign (.reset u.id u.email) 3600 now) 64 = t) ∧
    (findMatchedUser c now t users = none ↔
        ∀ u ∈ resetCandidates now users,
          strTake (c.jwtSign (.reset u.id u.email) 3600 now) 64 ≠ t) ∧
    (findMatchedUser c now t users = none →
        resetPassword c now t pw users = (.invalidOrExpiredToken, users)) := by
  refine ⟨fun u => mem_resetCandidates now users u, ?_, ?_, ?_⟩
  · intro u hu
    refine ⟨List.mem_of_find?_eq_some hu, ?_⟩
    have := List.find?_some hu
    simpa using this
  · constructor
    · intro hnone u hu
      have := List.find?_eq_none.mp hnone u hu
      simpa using this
    · intro hall
      apply List.find?_eq_none.mpr
      intro u hu
      simpa using hall u hu
  · intro hnone
    simp [resetPassword, ht, hp, hnone]

/-- Witness for C1 at a concrete store: a token matching no candidate is
answered with InvalidOrExpiredToken and the account list is unchanged. -/
theorem resetPassword_candidate_matching_witness :
    resetPassword cW 50 "zz" "npw" [uW] = (.invalidOrExpiredToken, [uW]) :=
  (resetPassword_candidate_matching cW 50 "zz" "npw" [uW]
    (by decide) (by decide)).2.2.2 (by decide)

/-- C2: when the consume endpoint matches a candidate (whose stored
expiry is then necessarily unexpired, having passed the candidate
query), it stores the hash of the submitted password on exactly that
account, clears both reset fields there, and maps every other account to
itself.  The side condition on resetToken rules out the empty string,
which JS would treat as falsy; stored tokens are bcrypt hashes and are
never empty. -/
theorem resetPassword_success_updates_target (c : CryptoModel) (now : Int)
    (t pw : String) (users : List User) (u : User)
    (ht : t ≠ "") (hp : pw ≠ "")
    (hm : findMatchedUser c now t users = some u)
    (hne : u.resetToken ≠ some "") :
    resetPassword c now t pw users =
      (.success,
        users.map (fun v =>
          if v.id = u.id then
            { v with password := c.bcryptHash pw,
                     resetToken := none, resetTokenExpires := none }
          else v)) ∧
    (∀ v : User, v.id ≠ u.id →
      (fun v : User =>
        if v.id = u.id then
          { v with password := c.bcryptHash pw,
                   resetToken := none, resetTokenExpires := none }
        else v) v = v) := by
  have hcand : u ∈ resetCandidates now users :=
    List.mem_of_find?_eq_some hm
  have hprops := (mem_resetCandidates now users u).mp hcand
  obtain ⟨-, htok, e, he, hlt⟩ := hprops
  have hexp : matchedTokenExpired now u = false := by
    obtain ⟨tok, htok'⟩ := Option.isSome_iff_exists.mp htok
    have htokne : tok ≠ "" := by
      intro h; exact hne (by rw [htok', h])
    simp [matchedTokenExpired, htok', he, htokne]
    omega
  constructor
  · simp [resetPassword, ht, hp, hm, hexp]
  · intro v hv
    simp [hv]

/-- Witness for C2: the matching token resets the stored password to the
hash of the new one and clears the reset fields. -/
theorem resetPassword_success_updates_target_witness :
    resetPassword cW 50 "R:u1:a@b.c" "npw" [uW] =
      (.success, [{ uW with password := "H:npw", resetToken := none, resetTokenExpires := none }]) := by
  have h := (resetPassword_success_updates_target cW 50 "R:u1:a@b.c" "npw" [uW] uW
    (by decide) (by decide) (by decide) (by decide)).1
  rw [h]
  decide

/-- Counterexample to C3 as stated: an account whose resetTokenExpires
has passed, presented with a truncated token whose prefix equals that
account's regenerated token, is answered with the no-match
InvalidOrExpiredToken error, not with TokenExpired. -/
theorem resetPassword_expired_not_tokenExpired :
    uExp.resetTokenExpires = some 10 ∧ (10 : Int) < 50 ∧
    strTake (cW.jwtSign (.reset uExp.id uExp.email) 3600 50) 64 = "R:u1:a@b.c" ∧
    resetPassword cW 50 "R:u1:a@b.c" "npw" [uExp] =
      (.invalidOrExpiredToken, [uExp]) ∧
    (resetPassword cW 50 "R:u1:a@b.c" "npw" [uExp]).1 ≠ .tokenExpired := by
  decide

/-- C3 amended: an account whose resetTokenExpires has passed is excluded
from the candidate query, so a truncated token that would match its
regenerated prefix is answered with the no-match InvalidOrExpiredToken
error (when no unexpired candidate matches it), never TokenExpired. -/
theorem resetPassword_expired_excluded (c : CryptoModel) (now : Int)
    (t pw : String) (users : List User) (ht : t ≠ "") (hp : pw ≠ "") :
    (∀ u ∈ users, (∀ e, u.resetTokenExpires = some e → e ≤ now) →
        u ∉ resetCandidates now users) ∧
    ((∀ u ∈ resetCandidates now users,
        strTake (c.jwtSign (.reset u.id u.email) 3600 now) 64 ≠ t) →
      resetPassword c now t pw users = (.invalidOrExpiredToken, users)) := by
  have hmain := resetPassword_candidate_matching c now t pw users ht hp
  constructor
  · intro u _ hexp hmem
    obtain ⟨-, -, e, he, hlt⟩ := (mem_resetCandidates now users u).mp hmem
    exact absurd (hexp e he) (by omega)
  · intro hall
    exact hmain.2.2.2 (hmain.2.2.1.mpr hall)

/-- Witness for the amended C3 at the concrete expired account. -/
theorem resetPassword_expired_excluded_witness :
    resetPassword cW 50 "R:u1:a@b.c" "npw" [uExp] =
      (.invalidOrExpiredToken, [uExp]) :=
  (resetPassword_expired_excluded cW 50 "R:u1:a@b.c" "npw" [uExp]
    (by decide) (by decide)).2 (by decide)

/-- C4: the reset request looks the account up case-insensitively; a miss
is a 404 that touches no account; a hit signs a 1-hour {userId, email}
token, persists its bcrypt hash and the now+1h expiry on exactly that
account, and the emailed URL embeds only the token's first 64
characters. -/
theorem emailRegexMatch_plain (pat s : List Char)
    (hp : ∀ ch ∈ pat, regexPlainChar ch = true) :
    emailRegexMatch pat s = true ↔ s.map lowerChar = pat.map lowerChar := by
  induction pat generalizing s with
  | nil => cases s <;> simp [emailRegexMatch]
  | cons p ps ih =>
      cases s with
      | nil => simp [emailRegexMatch]
      | cons c cs =>
          have hpd : p ≠ '.' := by
            intro hd
            have h0 := hp p (by simp)
            rw [hd] at h0
            exact absurd h0 (by decide)
          have ih2 := ih cs (fun ch hch => hp ch (by simp [hch]))
          simp only [emailRegexMatch, regexCharMatch, if_neg hpd,
            Bool.and_eq_true, beq_iff_eq, List.map_cons, List.cons.injEq, ih2]
          constructor
          · rintro ⟨h1, h2⟩
            exact ⟨h1.symm, h2⟩
          · rintro ⟨h1, h2⟩
            exact ⟨h1.symm, h2⟩

theorem find_congr_pointwise {α : Type} (f g : α → Bool) (l : List α)
    (h : ∀ a ∈ l, f a = g a) : l.find? f = l.find? g := by
  induction l with
  | nil => rfl
  | cons x xs ih =>
      rw [List.find?_cons, List.find?_cons, h x (List.mem_cons_self x xs)]
      cases hg : g x
      · exact ih (fun a ha => h a (List.mem_cons_of_mem x ha))
      · rfl

/-- C4 counterexample to the original claim: the submitted address
"a.@cd" is, case-insensitively, nobody's address in the store, so a
case-insensitive-equality lookup would answer 404 and change nothing; the
unescaped regex of src/server.js 1364 instead lets the dot match "ab@cd",
the endpoint does not answer 404, and the matched account is modified
with a freshly minted token hash. -/
theorem requestPasswordReset_dot_matches_other :
    lowerStr uE4.email ≠ lowerStr "a.@cd" ∧
    requestPasswordReset cW 7 true "a.@cd" [uE4] ≠ (.notFound, [uE4]) ∧
    (requestPasswordReset cW 7 true "a.@cd" [uE4]).2 ≠ [uE4] := by
  decide

/-- C4 (amended): the lookup runs the anchored case-insensitive regular
expression built from the raw submitted email, which coincides with
case-insensitive equality exactly when the email has no regex
metacharacter (first clause).  When no stored email matches the regex the
endpoint answers 404 and no account changes; when one matches, the first
matching account gets the bcrypt hash of a fresh signed 1-hour
{userId, email} token and a now+1h (future) expiry stored on it, and the
mailed URL carries only the token's first 64 characters, never the full
token.  Emails are restricted to plain characters and dots, the regex
constructs the embedding covers; any other metacharacter reaches further
(an ill-formed pattern even throws in the RegExp constructor, answered
500) and is outside the declared domain. -/
theorem requestPasswordReset_regex_spec (c : CryptoModel) (now : Int)
    (emailOk : Bool) (email : String) (users : List User) (he : email ≠ "")
    (hdom : ∀ ch ∈ email.data, regexPlainChar ch = true ∨ ch = '.') :
    ((∀ ch ∈ email.data, regexPlainChar ch = true) →
        users.find? (fun u => emailRegexMatch email.data u.email.data) =
          users.find? (fun u => lowerStr u.email == lowerStr email)) ∧
    (users.find? (fun u => emailRegexMatch email.data u.email.data) = none →
        requestPasswordReset c now emailOk email users = (.notFound, users)) ∧
    (∀ u, users.find? (fun u => emailRegexMatch email.data u.email.data) =
        some u →
        (requestPasswordReset c now emailOk email users).2 =
          users.map (fun v =>
            if v.id = u.id then
              { v with
                  resetToken := some (c.bcryptHash
                    (c.jwtSign (.reset u.id u.email) 3600 now)),
                  resetTokenExpires := some (now + 3600000) }
            else v) ∧
        now < now + 3600000 ∧
        ((requestPasswordReset c now emailOk email users).1 =
            .emailSent (resetUrlFor (c.jwtSign (.reset u.id u.email) 3600 now)) ∨
         (requestPasswordReset c now emailOk email users).1 =
            .emailFailed (resetUrlFor (c.jwtSign (.reset u.id u.email) 3600 now))) ∧
        resetUrlFor (c.jwtSign (.reset u.id u.email) 3600 now) =
          "http://localhost:3001/reset-password.html?t=" ++
            encodeURIComponent
              (strTake (c.jwtSign (.reset u.id u.email) 3600 now) 64)) := by
  refine ⟨?_, ?_, ?_⟩
  · intro hplain
    apply find_congr_pointwise
    intro u hu
    have h1 := emailRegexMatch_plain email.data u.email.data hplain
    have h2 : (lowerStr u.email == lowerStr email) = true ↔
        u.email.data.map lowerChar = email.data.map lowerChar := by
      constructor
      · intro hb
        have hb2 : lowerStr u.email = lowerStr email := by simpa using hb
        exact congrArg String.data hb2
      · intro hd
        have hb2 : lowerStr u.email = lowerStr email := by
          show String.mk (u.email.data.map lowerChar) =
            String.mk (email.data.map lowerChar)
          rw [hd]
        simp [hb2]
    cases hr : emailRegexMatch email.data u.email.data with
    | true => exact (h2.mpr (h1.mp hr)).symm
    | false =>
        cases hb : (lowerStr u.email == lowerStr email) with
        | true => exact absurd (h1.mpr (h2.mp hb)) (by simp [hr])
        | false => rfl
  · intro hnone
    simp [requestPasswordReset, he, hnone]
  · intro u hu
    refine ⟨by simp [requestPasswordReset, he, hu], by omega, ?_, rfl⟩
    cases emailOk
    · right; simp [requestPasswordReset, he, hu]
    · left; simp [requestPasswordReset, he, hu]

/-- Witness for C4: an email matching no stored address gives 404 and
changes no account, and at a metacharacter-free email the regex lookup
agrees with the case-insensitive-equality one. -/
theorem requestPasswordReset_regex_spec_witness :
    requestPasswordReset cW 7 true "x@y.z" [uW] = (.notFound, [uW]) ∧
    [uW].find? (fun u => emailRegexMatch "admin@x".data u.email.data) =
      [uW].find? (fun u => lowerStr u.email == lowerStr "admin@x") :=
  ⟨(requestPasswordReset_regex_spec cW 7 true "x@y.z" [uW] (by decide)
      (by decide)).2.1 (by decide),
   (requestPasswordReset_regex_spec cW 7 true "admin@x" [uW] (by decide)
      (by decide)).1 (by decide)⟩

/-- C8: login looks the account up by exact username; a miss is the typed
username_not_found credential failure, a failed bcrypt comparison the
incorrect_password one, and success returns the signed {userId, username}
token with a 1-hour expiry. -/
theorem login_spec (c : CryptoModel) (now : Int) (username password : String)
    (users : List User) (hu : username ≠ "") (hp : password ≠ "") :
    (users.find? (fun u => u.username == username) = none →
        login c now username password users =
          .invalidCredentials "username_not_found") ∧
    (∀ u, users.find? (fun u => u.username == username) = some u →
        (c.bcryptCompare password u.password = false →
            login c now username password users =
              .invalidCredentials "incorrect_password") ∧
        (c.bcryptCompare password u.password = true →
            login c now username password users =
              .success (c.jwtSign (.login u.id u.username) 3600 now))) := by
  constructor
  · intro hnone
    simp [login, hu, hp, hnone]
  · intro u hfind
    constructor
    · intro hcmp
      simp [login, hu, hp, hfind, hcmp]
    · intro hcmp
      simp [login, hu, hp, hfind, hcmp]

/-- Filtering with a predicate no element satisfies negated keeps the
whole list (the delete handlers' keep-everything case). -/
theorem filter_keep_of_no_id (xs : List Json) (id : String)
    (h : ∀ p ∈ xs, recId p ≠ some id) :
    xs.filter (fun p => !(recId p == some id)) = xs := by
  apply List.filter_eq_self.mpr
  intro p hp
  simpa using h p hp

theorem filterScan_cons_ne (id : String) (e : Json) (es : List Json)
    (he : e ≠ .null) :
    filterScan id (e :: es) = (filterScan id es).map
      (fun l => if recId e == some id then l else e :: l) := by
  cases e with
  | null => exact absurd rfl he
  | bool b => rfl
  | num n => rfl
  | str t => rfl
  | arr ys => rfl
  | obj gs => rfl

theorem findScan_cons_ne (id : String) (e : Json) (es : List Json)
    (he : e ≠ .null) :
    findScan id (e :: es) =
      if recId e == some id then .ok (some e) else findScan id es := by
  cases e with
  | null => exact absurd rfl he
  | bool b => rfl
  | num n => rfl
  | str t => rfl
  | arr ys => rfl
  | obj gs => rfl

/-- On a null-free array, the throwing filter is the plain filter. -/
theorem filterScan_no_null (id : String) (xs : List Json)
    (h : ∀ p ∈ xs, p ≠ Json.null) :
    filterScan id xs = .ok (xs.filter (fun p => !(recId p == some id))) := by
  induction xs with
  | nil => rfl
  | cons e es ih =>
      rw [filterScan_cons_ne id e es (h e (by simp)),
        ih (fun p hp => h p (by simp [hp]))]
      by_cases hid : recId e == some id
      · simp [Except.map, List.filter_cons, hid]
      · simp [Except.map, List.filter_cons, hid]

/-- A null element anywhere makes the filter callback throw. -/
theorem filterScan_err (id : String) (xs : List Json)
    (h : Json.null ∈ xs) : filterScan id xs = .error () := by
  induction xs with
  | nil => simp at h
  | cons e es ih =>
      by_cases he : e = Json.null
      · subst he
        rfl
      · rw [filterScan_cons_ne id e es he]
        rcases List.mem_cons.mp h with h1 | h2
        · exact absurd h1.symm he
        · rw [ih h2]
          rfl

theorem findScan_none (id : String) (xs : List Json)
    (hnn : ∀ p ∈ xs, p ≠ Json.null)
    (hno : ∀ p ∈ xs, recId p ≠ some id) :
    findScan id xs = .ok none := by
  induction xs with
  | nil => rfl
  | cons e es ih =>
      rw [findScan_cons_ne id e es (hnn e (by simp)),
        if_neg (by simpa using hno e (by simp))]
      exact ih (fun p hp => hnn p (by simp [hp])) (fun p hp => hno p (by simp [hp]))

/-- A completed miss of the find callback has touched every element, so
none was null. -/
theorem findScan_ok_none (id : String) (xs : List Json)
    (h : findScan id xs = .ok none) : Json.null ∉ xs := by
  induction xs with
  | nil => simp
  | cons e es ih =>
      by_cases he : e = Json.null
      · subst he
        simp [findScan] at h
      · rw [findScan_cons_ne id e es he] at h
        by_cases hid : recId e == some id
        · rw [if_pos hid] at h
          simp at h
        · rw [if_neg hid] at h
          intro hmem
          rcases List.mem_cons.mp hmem with h1 | h2
          · exact he h1.symm
          · exact (ih h) h2

/-- C9: deleting an id that matches none of the loaded records answers
404 and leaves the file exactly as it was (no save), for every delete
endpoint over a file-backed collection: projects, education, messages,
technologies and skills.  The 404 clauses are stated for stores free of
null elements: null is the one JSON value whose p.id property read makes
the filter/find callbacks throw a TypeError, a state no API write
produces; the last five clauses record that path — the TypeError is
caught and answered 500, again with the file unchanged. -/
theorem delete_missing_id_not_found :
    (∀ id s xs, jsOr s (.arr []) = .arr xs → (∀ p ∈ xs, p ≠ Json.null) →
        (∀ p ∈ xs, recId p ≠ some id) → deleteProject id s = (.notFound, s)) ∧
    (∀ id s xs, jsOr s (.arr []) = .arr xs → (∀ p ∈ xs, p ≠ Json.null) →
        (∀ p ∈ xs, recId p ≠ some id) → deleteEducation id s = (.notFound, s)) ∧
    (∀ id s xs, jsOr s (.arr []) = .arr xs → (∀ p ∈ xs, p ≠ Json.null) →
        (∀ p ∈ xs, recId p ≠ some id) → deleteMessage id s = (.notFound, s)) ∧
    (∀ id s xs, jsOr s (.arr []) = .arr xs → (∀ p ∈ xs, p ≠ Json.null) →
        (∀ p ∈ xs, recId p ≠ some id) → deleteTechnology id s = (.notFound, s)) ∧
    (∀ id fs xs, objGet fs "skills" = some (.arr xs) →
        (∀ p ∈ xs, p ≠ Json.null) → (∀ p ∈ xs, recId p ≠ some id) →
        deleteSkill id (some (.obj fs)) = (.notFound, some (.obj fs))) ∧
    (∀ id s xs, jsOr s (.arr []) = .arr xs → Json.null ∈ xs →
        deleteProject id s = (.serverError, s)) ∧
    (∀ id s xs, jsOr s (.arr []) = .arr xs → Json.null ∈ xs →
        deleteEducation id s = (.serverError, s)) ∧
    (∀ id s xs, jsOr s (.arr []) = .arr xs → Json.null ∈ xs →
        deleteMessage id s = (.serverError, s)) ∧
    (∀ id s xs, jsOr s (.arr []) = .arr xs → Json.null ∈ xs →
        deleteTechnology id s = (.serverError, s)) ∧
    (∀ id fs xs, objGet fs "skills" = some (.arr xs) → Json.null ∈ xs →
        deleteSkill id (some (.obj fs)) = (.serverError, some (.obj fs))) := by
  refine ⟨?_, ?_, ?_, ?_, ?_, ?_, ?_, ?_, ?_, ?_⟩
  · intro id s xs hload hnn hno
    have hsc := filterScan_no_null id xs hnn
    rw [filter_keep_of_no_id xs id hno] at hsc
    simp [deleteProject, hload, hsc]
  · intro id s xs hload hnn hno
    simp [deleteEducation, hload, findScan_none id xs hnn hno]
  · intro id s xs hload hnn hno
    have hsc := filterScan_no_null id xs hnn
    rw [filter_keep_of_no_id xs id hno] at hsc
    simp [deleteMessage, hload, hsc]
  · intro id s xs hload hnn hno
    have hsc := filterScan_no_null id xs hnn
    rw [filter_keep_of_no_id xs id hno] at hsc
    simp [deleteTechnology, hload, hsc]
  · intro id fs xs hsk hnn hno
    have hsc := filterScan_no_null id xs hnn
    rw [filter_keep_of_no_id xs id hno] at hsc
    simp [deleteSkill, jsFalsy, hsk, hsc]
  · intro id s xs hload hmem
    simp [deleteProject, hload, filterScan_err id xs hmem]
  · intro id s xs hload hmem
    cases hfs : findScan id xs with
    | error u => simp [deleteEducation, hload, hfs]
    | ok r =>
        cases r with
        | none => exact absurd hmem (findScan_ok_none id xs hfs)
        | some w =>
            simp [deleteEducation, hload, hfs, filterScan_err id xs hmem]
  · intro id s xs hload hmem
    simp [deleteMessage, hload, filterScan_err id xs hmem]
  · intro id s xs hload hmem
    simp [deleteTechnology, hload, filterScan_err id xs hmem]
  · intro id fs xs hsk hmem
    simp [deleteSkill, jsFalsy, hsk, filterScan_err id xs hmem]

/-- Witness for C9 at concrete one-record stores, including the 500 on a
null element. -/
theorem delete_missing_id_not_found_witness :
    deleteProject "zz" (some (.arr [.obj [("id", .str "a")]])) =
      (.notFound, some (.arr [.obj [("id", .str "a")]])) ∧
    deleteSkill "zz" (some (.obj [("skills", .arr [.obj [("id", .str "a")]])])) =
      (.notFound, some (.obj [("skills", .arr [.obj [("id", .str "a")]])])) ∧
    deleteProject "zz" (some (.arr [Json.null])) =
      (.serverError, some (.arr [Json.null])) :=
  ⟨delete_missing_id_not_found.1 "zz" _ [.obj [("id", .str "a")]]
      (by decide) (by decide) (by decide),
   delete_missing_id_not_found.2.2.2.2.1 "zz"
      [("skills", .arr [.obj [("id", .str "a")]])]
      [.obj [("id", .str "a")]] (by decide) (by decide) (by decide),
   delete_missing_id_not_found.2.2.2.2.2.1 "zz" _ [Json.null]
      (by decide) (by decide)⟩

/-! #### C6: shape preservation -/

/-- The top-level JSON shape of a resource file. -/
inductive TopShape where
  | missing
  | arrayShape
  | skillsWrapper
  | otherShape
  deriving DecidableEq

def topShape : Option Json → TopShape
  | none => .missing
  | some (.arr _) => .arrayShape
  | some (.obj fs) =>
      match objGet fs "skills" with
      | some (.arr _) => .skillsWrapper
      | _ => .otherShape
  | some _ => .otherShape

theorem topShape_array_iff (s : Option Json) :
    topShape s = .arrayShape ↔ ∃ xs, s = some (.arr xs) := by
  cases s with
  | none => simp [topShape]
  | some v =>
      cases v with
      | arr xs => simp [topShape]
      | obj fs =>
          simp only [topShape]
          constructor
          · intro h
            cases hg : objGet fs "skills" with
            | none => rw [hg] at h; simp at h
            | some w =>
                rw [hg] at h
                cases w <;> simp_all
          · rintro ⟨xs, h⟩
            simp at h
      | null => simp [topShape]
      | bool b => simp [topShape]
      | num n => simp [topShape]
      | str t => simp [topShape]

theorem topShape_wrapper_iff (s : Option Json) :
    topShape s = .skillsWrapper ↔
      ∃ fs xs, s = some (.obj fs) ∧ objGet fs "skills" = some (.arr xs) := by
  cases s with
  | none => simp [topShape]
  | some v =>
      cases v with
      | obj fs =>
          simp only [topShape]
          constructor
          · intro h
            cases hg : objGet fs "skills" with
            | none => rw [hg] at h; simp at h
            | some w =>
                rw [hg] at h
                cases w <;> simp_all
          · rintro ⟨fs', xs, h1, h2⟩
            obtain rfl : fs = fs' := by simpa using h1
            rw [h2]
      | arr xs => simp [topShape]
      | null => simp [topShape]
      | bool b => simp [topShape]
      | num n => simp [topShape]
      | str t => simp [topShape]

theorem objGet_insertKey_self (fs : List (String × Json)) (k : String) (v : Json) :
    objGet (insertKey fs k v) k = some v := by
  induction fs with
  | nil => simp [insertKey, objGet]
  | cons p rest ih =>
      obtain ⟨k', v'⟩ := p
      by_cases h : k' = k
      · subst h
        simp [insertKey, objGet]
      · simp [insertKey, objGet, h, ih]

theorem jsOr_arr (xs : List Json) (d : Json) : jsOr (some (.arr xs)) d = .arr xs := rfl

theorem jsOr_obj (fs : List (String × Json)) (d : Json) :
    jsOr (some (.obj fs)) d = .obj fs := rfl

/-- Pushing topShape through a handler's if-branching. -/
theorem topShape_snd_ite (c : Prop) [Decidable c] (x y : HStatus × Option Json) :
    topShape (if c then x else y).2 = if c then topShape x.2 else topShape y.2 := by
  split <;> rfl

/-- C6: every mutating CRUD handler over a file-backed resource
preserves the file's top-level shape when the starting file has the
shape of its resource type: the bare array for projects, education and
messages, and the skills wrapper object for the skills file (both the
/api/skills and the /api/technologies handlers operate on it; on the
wrapper the technologies handlers throw before saving, answering 500
with the file untouched). -/
theorem crud_preserves_top_shape :
    (∀ a b f s, topShape s = .arrayShape →
        topShape (postProject a b f s).2 = .arrayShape) ∧
    (∀ a b f s, topShape s = .arrayShape →
        topShape (putProject a b f s).2 = .arrayShape) ∧
    (∀ a s, topShape s = .arrayShape →
        topShape (deleteProject a s).2 = .arrayShape) ∧
    (∀ a b f s, topShape s = .arrayShape →
        topShape (postEducation a b f s).2 = .arrayShape) ∧
    (∀ a b f s, topShape s = .arrayShape →
        topShape (putEducation a b f s).2 = .arrayShape) ∧
    (∀ a s, topShape s = .arrayShape →
        topShape (deleteEducation a s).2 = .arrayShape) ∧
    (∀ a b body s, topShape s = .arrayShape →
        topShape (postMessage a b body s).2 = .arrayShape) ∧
    (∀ a b s, topShape s = .arrayShape →
        topShape (putMessageRead a b s).2 = .arrayShape) ∧
    (∀ a s, topShape s = .arrayShape →
        topShape (deleteMessage a s).2 = .arrayShape) ∧
    (∀ a b body s, topShape s = .skillsWrapper →
        topShape (postSkill a b body s).2 = .skillsWrapper) ∧
    (∀ a b body s, topShape s = .skillsWrapper →
        topShape (putSkill a b body s).2 = .skillsWrapper) ∧
    (∀ a s, topShape s = .skillsWrapper →
        topShape (deleteSkill a s).2 = .skillsWrapper) ∧
    (∀ a b body s, topShape s = .skillsWrapper →
        topShape (postTechnology a b body s).2 = .skillsWrapper) ∧
    (∀ a b body s, topShape s = .skillsWrapper →
        topShape (putTechnology a b body s).2 = .skillsWrapper) ∧
    (∀ a s, topShape s = .skillsWrapper →
        topShape (deleteTechnology a s).2 = .skillsWrapper) := by
  refine ⟨?_, ?_, ?_, ?_, ?_, ?_, ?_, ?_, ?_, ?_, ?_, ?_, ?_, ?_, ?_⟩
  · intro a b f s hs
    obtain ⟨xs, rfl⟩ := (topShape_array_iff s).mp hs
    simp [postProject, jsOr, jsFalsy, topShape]
  · intro a b f s hs
    obtain ⟨xs, rfl⟩ := (topShape_array_iff s).mp hs
    simp only [putProject, jsOr_arr]
    cases hfi : findIdxScan b xs with
    | error u => simp [hfi, topShape]
    | ok r =>
        cases r with
        | none => simp [hfi, topShape]
        | some i =>
            simp only [hfi]
            by_cases hb : (blankStr f.title = true ∨ blankStr f.description = true) ∨ blankStr f.technologies = true
            · simp [hb, topShape]
            · simp [hb, topShape]
  · intro a s hs
    obtain ⟨xs, rfl⟩ := (topShape_array_iff s).mp hs
    simp only [deleteProject, jsOr_arr]
    cases hfl : filterScan a xs with
    | error u => simp [hfl, topShape]
    | ok l =>
        simp only [hfl]
        by_cases hlen : xs.length = l.length
        · simp [hlen, topShape]
        · simp [hlen, topShape]
  · intro a b f s hs
    obtain ⟨xs, rfl⟩ := (topShape_array_iff s).mp hs
    simp [postEducation, jsOr, jsFalsy, topShape]
  · intro a b f s hs
    obtain ⟨xs, rfl⟩ := (topShape_array_iff s).mp hs
    simp only [putEducation, jsOr, jsFalsy]
    cases hfi : findIdxScan b xs with
    | error u => simp [hfi, topShape]
    | ok r => cases r <;> simp [hfi, topShape]
  · intro a s hs
    obtain ⟨xs, rfl⟩ := (topShape_array_iff s).mp hs
    simp only [deleteEducation, jsOr, jsFalsy]
    cases hfs : findScan a xs with
    | error u => simp [hfs, topShape]
    | ok r =>
        cases r with
        | none => simp [hfs, topShape]
        | some w =>
            cases hfl : filterScan a xs with
            | error u => simp [hfs, hfl, topShape]
            | ok l => simp [hfs, hfl, topShape]
  · intro a b body s hs
    obtain ⟨xs, rfl⟩ := (topShape_array_iff s).mp hs
    simp [postMessage, jsOr, jsFalsy, topShape]
  · intro a b s hs
    obtain ⟨xs, rfl⟩ := (topShape_array_iff s).mp hs
    simp only [putMessageRead, jsOr, jsFalsy]
    cases hfi : findIdxScan b xs with
    | error u => simp [hfi, topShape]
    | ok r => cases r <;> simp [hfi, topShape]
  · intro a s hs
    obtain ⟨xs, rfl⟩ := (topShape_array_iff s).mp hs
    simp only [deleteMessage, jsOr_arr]
    cases hfl : filterScan a xs with
    | error u => simp [hfl, topShape]
    | ok l =>
        simp only [hfl]
        by_cases hlen : xs.length = l.length
        · simp [hlen, topShape]
        · simp [hlen, topShape]
  · intro a b body s hs
    obtain ⟨fs, xs, rfl, hsk⟩ := (topShape_wrapper_iff s).mp hs
    simp [postSkill, jsOr, jsFalsy, hsk, topShape, objGet_insertKey_self]
  · intro a b body s hs
    obtain ⟨fs, xs, rfl, hsk⟩ := (topShape_wrapper_iff s).mp hs
    simp only [putSkill, jsOr, jsFalsy, hsk]
    cases hfi : findIdxScan b xs with
    | error u => simp [hfi, topShape, hsk]
    | ok r => cases r <;> simp [hfi, topShape, hsk, objGet_insertKey_self]
  · intro a s hs
    obtain ⟨fs, xs, rfl, hsk⟩ := (topShape_wrapper_iff s).mp hs
    simp only [deleteSkill, jsFalsy, hsk]
    cases hfl : filterScan a xs with
    | error u => simp [hfl, topShape, hsk]
    | ok l =>
        simp only [hfl]
        by_cases hlen : l.length = xs.length
        · simp [hlen, topShape, hsk]
        · simp [hlen, topShape, objGet]
  · intro a b body s hs
    obtain ⟨fs, xs, rfl, hsk⟩ := (topShape_wrapper_iff s).mp hs
    simp [postTechnology, jsOr, jsFalsy, topShape, hsk]
  · intro a b body s hs
    obtain ⟨fs, xs, rfl, hsk⟩ := (topShape_wrapper_iff s).mp hs
    simp [putTechnology, jsOr, jsFalsy, topShape, hsk]
  · intro a s hs
    obtain ⟨fs, xs, rfl, hsk⟩ := (topShape_wrapper_iff s).mp hs
    simp only [deleteTechnology, jsOr_obj]
    simp [topShape, hsk]

/-- Witness for C6 at concrete stores: the wrapper survives a skills
insert and delete, the array survives a project delete, and the
technologies delete on the wrapper fails without touching it. -/
theorem crud_preserves_top_shape_witness :
    topShape (postSkill "n" "t" []
      (some (.obj [("skills", .arr [])]))).2 = .skillsWrapper ∧
    topShape (deleteTechnology "a"
      (some (.obj [("skills", .arr [.obj [("id", .str "a")]])]))).2 = .skillsWrapper ∧
    topShape (deleteProject "a"
      (some (.arr [.obj [("id", .str "a")]]))).2 = .arrayShape :=
  ⟨crud_preserves_top_shape.2.2.2.2.2.2.2.2.2.1 "n" "t" [] _ (by decide),
   crud_preserves_top_shape.2.2.2.2.2.2.2.2.2.2.2.2.2.2 "a" _ (by decide),
   crud_preserves_top_shape.2.2.1 "a" _ (by decide)⟩

/-- C10: GET /api/projects answers 200 with a JSON array for every state
of the projects file; the missing, unparsable and parsed-non-array states
all produce the empty array.  Every step of the handler body is total in
the model, so the catch branch answering 500 is unreachable: the status
is 200 on all inputs. -/
theorem getProjects_always_200_array (file : Option String) :
    (getProjects file).1 = 200 ∧
    (∃ xs, (getProjects file).2 = .arr xs) ∧
    (file = none → (getProjects file).2 = .arr []) ∧
    (∀ s, file = some s → parse s = none → (getProjects file).2 = .arr []) ∧
    (∀ s v, file = some s → parse s = some v → (∀ xs, v ≠ .arr xs) →
        (getProjects file).2 = .arr []) ∧
    (∀ s xs, file = some s → parse s = some (.arr xs) →
        (getProjects file).2 = .arr xs) := by
  refine ⟨?_, ?_, ?_, ?_, ?_, ?_⟩
  · rcases hl : loadData file with - | v
    · simp [getProjects, hl]
    · cases v <;> simp [getProjects, hl]
  · rcases hl : loadData file with - | v
    · exact ⟨[], by simp [getProjects, hl]⟩
    · cases v with
      | arr xs => exact ⟨xs, by simp [getProjects, hl]⟩
      | null => exact ⟨[], by simp [getProjects, hl]⟩
      | bool b => exact ⟨[], by simp [getProjects, hl]⟩
      | num n => exact ⟨[], by simp [getProjects, hl]⟩
      | str t => exact ⟨[], by simp [getProjects, hl]⟩
      | obj fs => exact ⟨[], by simp [getProjects, hl]⟩
  · rintro rfl
    simp [getProjects, loadData]
  · rintro s rfl hp
    simp [getProjects, loadData, hp]
  · rintro s v rfl hp hne
    cases v with
    | arr xs => exact absurd rfl (hne xs)
    | null => simp [getProjects, loadData, hp]
    | bool b => simp [getProjects, loadData, hp]
    | num n => simp [getProjects, loadData, hp]
    | str t => simp [getProjects, loadData, hp]
    | obj fs => simp [getProjects, loadData, hp]
  · rintro s xs rfl hp
    simp [getProjects, loadData, hp]

/-- An archive file name is never the active messages file: the two
differ at character position 7. -/
theorem archiveName_ne_messages (y : Int) : archiveName y ≠ "messages.json" := by
  intro h
  have h2 := congrArg (fun s : String => s.data[7]?) h
  simp only [archiveName, String.data_append] at h2
  rw [List.getElem?_append_left (by simp)] at h2
  rw [List.getElem?_append_left (by decide)] at h2
  exact absurd h2 (by decide)

/-- C7: one archival run partitions the active messages into old
(createdAt more than 30 days before now — with new Date coercion: null is
the epoch and booleans 0/1 ms, so a null-createdAt read message counts as
old — and a truthy read flag) and current; an empty old partition changes
no file; otherwise the old messages are appended to the current year's
archive file message-archive-year.json, the active file is overwritten
with the current partition, every other file is untouched, and pointwise:
an old read message lands in the archive and leaves the active file while
a message that is not old (for example unread) stays in the active file.
Stated for collections without null elements (on which the reduce
callback's property read throws, ending the run with no file written) and
with non-composite createdAt fields, the declared date domain. -/
theorem archiveOldMessages_spec (parseDate : String → Option Int)
    (yearOf : Int → Int) (now : Int) (files : String → Option Json)
    (ms archived : List Json)
    (hm : files "messages.json" = some (.arr ms))
    (ha : jsOr (files (archiveName (yearOf now))) (.arr []) = .arr archived)
    (hnn : ms.contains Json.null = false)
    (hsimple : ∀ m ∈ ms, createdAtSimple m = true) :
    (ms.filter (msgIsOld parseDate (now - 30 * 86400000)) = [] →
        archiveOldMessages parseDate yearOf now files = files) ∧
    (ms.filter (msgIsOld parseDate (now - 30 * 86400000)) ≠ [] →
        archiveOldMessages parseDate yearOf now files (archiveName (yearOf now)) =
          some (.arr (archived ++
            ms.filter (msgIsOld parseDate (now - 30 * 86400000)))) ∧
        archiveOldMessages parseDate yearOf now files "messages.json" =
          some (.arr (ms.filter
            (fun m => !msgIsOld parseDate (now - 30 * 86400000) m))) ∧
        (∀ name, name ≠ "messages.json" → name ≠ archiveName (yearOf now) →
          archiveOldMessages parseDate yearOf now files name = files name)) ∧
    (∀ m ∈ ms, msgIsOld parseDate (now - 30 * 86400000) m = true →
        archiveOldMessages parseDate yearOf now files (archiveName (yearOf now)) =
          some (.arr (archived ++
            ms.filter (msgIsOld parseDate (now - 30 * 86400000)))) ∧
        m ∈ archived ++ ms.filter (msgIsOld parseDate (now - 30 * 86400000)) ∧
        m ∉ ms.filter (fun m => !msgIsOld parseDate (now - 30 * 86400000) m)) ∧
    (∀ m ∈ ms, msgIsOld parseDate (now - 30 * 86400000) m = false →
        ∃ cur, archiveOldMessages parseDate yearOf now files "messages.json" =
          some (.arr cur) ∧ m ∈ cur) := by
  have hmain : ∀ holds : ms.filter (msgIsOld parseDate (now - 30 * 86400000)) ≠ [],
      archiveOldMessages parseDate yearOf now files =
        fun name =>
          if name = archiveName (yearOf now) then
            some (.arr (archived ++
              ms.filter (msgIsOld parseDate (now - 30 * 86400000))))
          else if name = "messages.json" then
            some (.arr (ms.filter
              (fun m => !msgIsOld parseDate (now - 30 * 86400000) m)))
          else files name := by
    intro holds
    have hie : (ms.filter (msgIsOld parseDate (now - 30 * 86400000))).isEmpty =
        false := by
      cases hc : (ms.filter (msgIsOld parseDate (now - 30 * 86400000))).isEmpty
      · rfl
      · exact absurd (by simpa [List.isEmpty_iff] using hc) holds
    simp only [archiveOldMessages, hm, jsOr_arr, ha, hnn, hie]
    rw [if_neg (show ¬(false = true) from by decide)]
    rw [if_neg (show ¬(false = true) from by decide)]
  refine ⟨?_, ?_, ?_, ?_⟩
  · intro hempty
    have hie : (ms.filter (msgIsOld parseDate (now - 30 * 86400000))).isEmpty =
        true := by
      simpa [List.isEmpty_iff] using hempty
    simp only [archiveOldMessages, hm, jsOr_arr, hnn, hie]
    rw [if_neg (show ¬(false = true) from by decide)]
    rw [if_pos (show True from trivial)]
  · intro holds
    rw [hmain holds]
    refine ⟨by simp, ?_, ?_⟩
    · simp [Ne.symm (archiveName_ne_messages (yearOf now))]
    · intro name h1 h2
      simp [h1, h2]
  · intro m hm' hold
    have holds : ms.filter (msgIsOld parseDate (now - 30 * 86400000)) ≠ [] := by
      intro hc
      have : m ∈ ms.filter (msgIsOld parseDate (now - 30 * 86400000)) :=
        List.mem_filter.mpr ⟨hm', hold⟩
      rw [hc] at this
      exact absurd this (List.not_mem_nil m)
    rw [hmain holds]
    refine ⟨by simp, ?_, ?_⟩
    · exact List.mem_append_right _ (List.mem_filter.mpr ⟨hm', hold⟩)
    · intro hc
      have h2 := (List.mem_filter.mp hc).2
      rw [hold] at h2
      simp at h2
  · intro m hm' hnot
    by_cases hempty : ms.filter (msgIsOld parseDate (now - 30 * 86400000)) = []
    · refine ⟨ms, ?_, hm'⟩
      have hfun : archiveOldMessages parseDate yearOf now files = files := by
        have hie : (ms.filter (msgIsOld parseDate (now - 30 * 86400000))).isEmpty =
            true := by
          simpa [List.isEmpty_iff] using hempty
        simp only [archiveOldMessages, hm, jsOr_arr, hnn, hie]
        rw [if_neg (show ¬(false = true) from by decide)]
        rw [if_pos (show True from trivial)]
      rw [hfun, hm]
    · refine ⟨ms.filter (fun m => !msgIsOld parseDate (now - 30 * 86400000) m), ?_, ?_⟩
      · rw [hmain hempty]
        simp [Ne.symm (archiveName_ne_messages (yearOf now))]
      · exact List.mem_filter.mpr ⟨hm', by simp only [Bool.not_eq_true']; exact hnot⟩

/-- Witness for C7: a 31-day-old read message and a null-createdAt read
message (epoch date, old) move to the 2026 archive and leave the active
file; the unread message of the same age stays. -/
theorem archiveOldMessages_spec_witness :
    archiveOldMessages (fun _ => none) (fun _ => 2026) (31 * 86400000)
        (fun n => if n = "messages.json" then
          some (.arr [.obj [("id", .str "m1"), ("createdAt", .num 0), ("read", .bool true)],
                      .obj [("id", .str "m2"), ("createdAt", .num 0), ("read", .bool false)],
                      .obj [("id", .str "m3"), ("createdAt", .null), ("read", .bool true)]])
          else none) "messages.json" =
      some (.arr [.obj [("id", .str "m2"), ("createdAt", .num 0), ("read", .bool false)]]) ∧
    archiveOldMessages (fun _ => none) (fun _ => 2026) (31 * 86400000)
        (fun n => if n = "messages.json" then
          some (.arr [.obj [("id", .str "m1"), ("createdAt", .num 0), ("read", .bool true)],
                      .obj [("id", .str "m2"), ("createdAt", .num 0), ("read", .bool false)],
                      .obj [("id", .str "m3"), ("createdAt", .null), ("read", .bool true)]])
          else none) (archiveName 2026) =
      some (.arr [.obj [("id", .str "m1"), ("createdAt", .num 0), ("read", .bool true)],
                  .obj [("id", .str "m3"), ("createdAt", .null), ("read", .bool true)]]) := by
  have h := archiveOldMessages_spec (fun _ => none) (fun _ => 2026) (31 * 86400000)
    (fun n => if n = "messages.json" then
      some (.arr [.obj [("id", .str "m1"), ("createdAt", .num 0), ("read", .bool true)],
                  .obj [("id", .str "m2"), ("createdAt", .num 0), ("read", .bool false)],
                  .obj [("id", .str "m3"), ("createdAt", .null), ("read", .bool true)]])
      else none)
    [.obj [("id", .str "m1"), ("createdAt", .num 0), ("read", .bool true)],
     .obj [("id", .str "m2"), ("createdAt", .num 0), ("read", .bool false)],
     .obj [("id", .str "m3"), ("createdAt", .null), ("read", .bool true)]]
    [] (by decide) (by decide) (by decide) (by decide)
  obtain ⟨h1, h2⟩ := (h.2.1 (by decide))
  exact ⟨by rw [h2.1]; decide, by rw [h1]; decide⟩

/-! #### C5: the record-store round trip.  The development below proves
parse (stringify v) = some v for every well-formed value, by mutual
induction over the value, with the parser's fuel bounded below by the
length of the remaining input. -/

theorem skipWs_spaces_append (n : Nat) (l : List Char) :
    skipWs (spaces n ++ l) = skipWs l := by
  induction n with
  | zero => simp [spaces]
  | succ m ih =>
      simp only [spaces, List.replicate_succ, List.cons_append, skipWs]
      rw [if_pos (by decide)]
      simpa [spaces] using ih

theorem skipWs_cons_ws (c : Char) (l : List Char) (h : isWsChar c = true) :
    skipWs (c :: l) = skipWs l := by
  simp [skipWs, h]

theorem skipWs_cons_not_ws (c : Char) (l : List Char) (h : isWsChar c = false) :
    skipWs (c :: l) = c :: l := by
  simp [skipWs, h]

/-- The next character, if any, is not a digit: the contexts in which a
printed number can stop. -/
def noDigitHead : List Char → Bool
  | [] => true
  | c :: _ => !isDigitChar c

theorem digitChar_spec (d : Nat) (hd : d < 10) :
    isDigitChar (digitChar d) = true ∧ isWsChar (digitChar d) = false ∧
      (digitChar d).toNat - 48 = d ∧ (d ≠ 0 → digitChar d ≠ '0') := by
  interval_cases d <;> exact ⟨by decide, by decide, by decide, by decide⟩

theorem digitsToNat_nil (a : Nat) : digitsToNat a [] = a := rfl

theorem digitsToNat_cons (a : Nat) (c : Char) (cs : List Char) :
    digitsToNat a (c :: cs) = digitsToNat (a * 10 + (c.toNat - 48)) cs := rfl

theorem digitsToNat_append (a : Nat) (xs ys : List Char) :
    digitsToNat a (xs ++ ys) = digitsToNat (digitsToNat a xs) ys := by
  induction xs generalizing a with
  | nil => rw [List.nil_append, digitsToNat_nil]
  | cons c cs ih => rw [List.cons_append, digitsToNat_cons, digitsToNat_cons, ih]

theorem natToCharsCore_shift (fuel : Nat) :
    ∀ n acc, natToCharsCore n fuel acc = natToCharsCore n fuel [] ++ acc := by
  induction fuel with
  | zero => intro n acc; cases n <;> simp [natToCharsCore]
  | succ f ih =>
      intro n acc
      cases n with
      | zero => simp [natToCharsCore]
      | succ m =>
          simp only [natToCharsCore]
          rw [ih _ (digitChar ((m + 1) % 10) :: acc), ih _ [digitChar ((m + 1) % 10)]]
          simp

theorem natToCharsCore_spec (fuel : Nat) :
    ∀ n, 0 < n → n ≤ fuel →
      natToCharsCore n fuel [] ≠ [] ∧
      (∀ c ∈ natToCharsCore n fuel [], isDigitChar c = true) ∧
      (natToCharsCore n fuel []).head? ≠ some '0' ∧
      (∀ a, digitsToNat a (natToCharsCore n fuel []) =
        a * 10 ^ (natToCharsCore n fuel []).length + n) := by
  induction fuel with
  | zero => intro n h1 h2; omega
  | succ f ih =>
      intro n h1 h2
      obtain ⟨m, rfl⟩ : ∃ m, n = m + 1 := ⟨n - 1, by omega⟩
      have hmod : (m + 1) % 10 < 10 := Nat.mod_lt _ (by omega)
      obtain ⟨hdig, -, hval, hnz⟩ := digitChar_spec ((m + 1) % 10) hmod
      simp only [natToCharsCore]
      rw [natToCharsCore_shift]
      by_cases hq : (m + 1) / 10 = 0
      · rw [hq]
        have h0 : natToCharsCore 0 f [] = [] := by cases f <;> rfl
        rw [h0]
        simp only [List.nil_append]
        have hm10 : m + 1 < 10 := by omega
        have hmm : (m + 1) % 10 = m + 1 := Nat.mod_eq_of_lt hm10
        refine ⟨by simp, ?_, ?_, ?_⟩
        · intro c hc
          simp at hc
          rw [hc]
          exact hdig
        · intro hcontra
          have hcc : digitChar ((m + 1) % 10) = '0' := by simpa using hcontra
          exact hnz (by omega) hcc
        · intro a
          rw [digitsToNat_cons, digitsToNat_nil, hval]
          simp only [List.length_cons, List.length_nil, pow_one]
          omega
      · have hqle : (m + 1) / 10 ≤ f := by omega
        have hqpos : 0 < (m + 1) / 10 := Nat.pos_of_ne_zero hq
        obtain ⟨hne, hall, hhd, hv⟩ := ih _ hqpos hqle
        refine ⟨by simp, ?_, ?_, ?_⟩
        · intro c hc
          rcases List.mem_append.mp hc with h | h
          · exact hall c h
          · simp at h; rw [h]; exact hdig
        · rwa [List.head?_append_of_ne_nil _ hne]
        · intro a
          rw [digitsToNat_append, List.length_append, hv a,
            digitsToNat_cons, digitsToNat_nil, hval]
          simp only [List.length_cons, List.length_nil]
          rw [pow_succ]
          calc (a * 10 ^ (natToCharsCore ((m + 1) / 10) f []).length + (m + 1) / 10) * 10 +
                (m + 1) % 10
              = a * (10 ^ (natToCharsCore ((m + 1) / 10) f []).length * 10) +
                  (10 * ((m + 1) / 10) + (m + 1) % 10) := by ring
            _ = a * (10 ^ (natToCharsCore ((m + 1) / 10) f []).length * 10) + (m + 1) := by
                  rw [Nat.div_add_mod]

theorem natToChars_spec (n : Nat) :
    natToChars n ≠ [] ∧
    (∀ c ∈ natToChars n, isDigitChar c = true) ∧
    (n ≠ 0 → (natToChars n).head? ≠ some '0') ∧
    digitsToNat 0 (natToChars n) = n ∧
    (n = 0 → natToChars n = ['0']) := by
  by_cases h : n = 0
  · subst h
    refine ⟨by decide, ?_, fun hc => (hc rfl).elim, by decide, fun _ => rfl⟩
    intro c hc
    simp [natToChars] at hc
    rw [hc]; decide
  · obtain ⟨hne, hall, hhd, hv⟩ :=
      natToCharsCore_spec n n (Nat.pos_of_ne_zero h) le_rfl
    have hunf : natToChars n = natToCharsCore n n [] := by simp [natToChars, h]
    rw [hunf]
    exact ⟨hne, hall, fun _ => hhd, by simpa using hv 0, fun hc => absurd hc h⟩

theorem takeDigits_append (ds rest : List Char)
    (hds : ∀ c ∈ ds, isDigitChar c = true) (hrest : noDigitHead rest = true) :
    takeDigits (ds ++ rest) = (ds, rest) := by
  induction ds with
  | nil =>
      simp only [List.nil_append]
      cases rest with
      | nil => rfl
      | cons c cs =>
          have : isDigitChar c = false := by simpa [noDigitHead] using hrest
          simp [takeDigits, this]
  | cons c cs ih =>
      have hc : isDigitChar c = true := hds c (by simp)
      have ih' := ih (fun d hd => hds d (by simp [hd]))
      simp [takeDigits, hc, ih']

theorem parseNat_print (n : Nat) (rest : List Char)
    (hrest : noDigitHead rest = true) :
    parseNat (natToChars n ++ rest) = some (n, rest) := by
  obtain ⟨hne, hall, hhd, hval, hzero⟩ := natToChars_spec n
  have htake := takeDigits_append (natToChars n) rest hall hrest
  obtain ⟨d, ds, hds⟩ : ∃ d ds, natToChars n = d :: ds := by
    cases hh : natToChars n with
    | nil => exact absurd hh hne
    | cons d ds => exact ⟨d, ds, rfl⟩
  rw [hds] at htake hval
  rw [hds]
  simp only [List.cons_append] at htake ⊢
  simp only [parseNat, htake]
  by_cases h0 : n = 0
  · have h00 := hzero h0
    rw [hds] at h00
    injection h00 with h1 h2
    subst h1
    subst h2
    rw [if_neg (by decide)]
    rw [hval, h0]
  · have hd0 : d ≠ '0' := by
      intro hc
      apply hhd h0
      rw [hds, hc]
      rfl
    rw [if_neg (by simp [hd0])]
    rw [hval]

theorem parseNumber_print (i : Int) (rest : List Char)
    (hrest : noDigitHead rest = true) :
    parseNumber (intToChars i ++ rest) = some (.num i, rest) := by
  by_cases hneg : i < 0
  · simp only [intToChars, if_pos hneg, List.cons_append, parseNumber, if_pos rfl]
    rw [parseNat_print _ _ hrest]
    simp only [Option.map_some']
    rw [Int.ofNat_natAbs_of_nonpos (le_of_lt hneg), neg_neg]
    simp
  · simp only [intToChars, if_neg hneg]
    obtain ⟨hne, hall, -, -, -⟩ := natToChars_spec i.natAbs
    obtain ⟨d, ds, hds⟩ : ∃ d ds, natToChars i.natAbs = d :: ds := by
      cases hh : natToChars i.natAbs with
      | nil => exact absurd hh hne
      | cons d ds => exact ⟨d, ds, rfl⟩
    have hd : isDigitChar d = true := hall d (by rw [hds]; simp)
    have hdm : d ≠ '-' := by
      intro hc
      rw [hc] at hd
      exact absurd hd (by decide)
    rw [hds]
    simp only [List.cons_append, parseNumber, if_neg hdm]
    rw [← List.cons_append, ← hds, parseNat_print _ _ hrest]
    simp only [Option.map_some']
    rw [Int.natAbs_of_nonneg (not_lt.mp hneg)]

theorem hexChar_spec (n : Nat) (h : n < 16) : hexVal (hexChar n) = some n := by
  interval_cases n <;> decide

theorem psb_quote (rest : List Char) :
    parseStringBody ('"' :: rest) = some ([], rest) := by
  rw [parseStringBody.eq_def]
  simp

theorem psb_esc_quote (rest : List Char) :
    parseStringBody ('\\' :: '"' :: rest) =
      (parseStringBody rest).map (fun r => ('"' :: r.1, r.2)) := by
  rw [parseStringBody.eq_def]
  simp

theorem psb_esc_backslash (rest : List Char) :
    parseStringBody ('\\' :: '\\' :: rest) =
      (parseStringBody rest).map (fun r => ('\\' :: r.1, r.2)) := by
  rw [parseStringBody.eq_def]
  simp

theorem psb_esc_n (rest : List Char) :
    parseStringBody ('\\' :: 'n' :: rest) =
      (parseStringBody rest).map (fun r => ('\n' :: r.1, r.2)) := by
  rw [parseStringBody.eq_def]
  simp

theorem psb_esc_r (rest : List Char) :
    parseStringBody ('\\' :: 'r' :: rest) =
      (parseStringBody rest).map (fun r => ('\r' :: r.1, r.2)) := by
  rw [parseStringBody.eq_def]
  simp

theorem psb_esc_t (rest : List Char) :
    parseStringBody ('\\' :: 't' :: rest) =
      (parseStringBody rest).map (fun r => ('\t' :: r.1, r.2)) := by
  rw [parseStringBody.eq_def]
  simp

theorem psb_esc_b (rest : List Char) :
    parseStringBody ('\\' :: 'b' :: rest) =
      (parseStringBody rest).map (fun r => (Char.ofNat 8 :: r.1, r.2)) := by
  rw [parseStringBody.eq_def]
  simp

theorem psb_esc_f (rest : List Char) :
    parseStringBody ('\\' :: 'f' :: rest) =
      (parseStringBody rest).map (fun r => (Char.ofNat 12 :: r.1, r.2)) := by
  rw [parseStringBody.eq_def]
  simp

theorem psb_esc_u (a b c2 d : Char) (rest : List Char) (ha hb hc2 hd : Nat)
    (h1 : hexVal a = some ha) (h2 : hexVal b = some hb)
    (h3 : hexVal c2 = some hc2) (h4 : hexVal d = some hd) :
    parseStringBody ('\\' :: 'u' :: a :: b :: c2 :: d :: rest) =
      (parseStringBody rest).map
        (fun r => (Char.ofNat (((ha * 16 + hb) * 16 + hc2) * 16 + hd) :: r.1, r.2)) := by
  rw [parseStringBody.eq_def]
  simp [h1, h2, h3, h4]

theorem psb_plain (c : Char) (t : List Char) (h1 : c ≠ '"') (h2 : c ≠ '\\')
    (h3 : ¬ c.toNat < 32) :
    parseStringBody (c :: t) = (parseStringBody t).map (fun r => (c :: r.1, r.2)) := by
  rw [parseStringBody.eq_def]
  simp [h1, h2, h3]

theorem parseStringBody_escape (cs rest : List Char) :
    parseStringBody (escapeChars cs ++ ('"' :: rest)) = some (cs, rest) := by
  induction cs with
  | nil =>
      simp only [escapeChars, List.nil_append]
      exact psb_quote rest
  | cons c cs' ih =>
      simp only [escapeChars, List.append_assoc]
      by_cases h1 : c = '"'
      · subst h1
        rw [show escChar '"' = ['\\', '"'] from by decide]
        simp only [List.cons_append, List.nil_append]
        rw [psb_esc_quote, ih]
        rfl
      · by_cases h2 : c = '\\'
        · subst h2
          rw [show escChar '\\' = ['\\', '\\'] from by decide]
          simp only [List.cons_append, List.nil_append]
          rw [psb_esc_backslash, ih]
          rfl
        · by_cases h3 : c = '\n'
          · subst h3
            rw [show escChar '\n' = ['\\', 'n'] from by decide]
            simp only [List.cons_append, List.nil_append]
            rw [psb_esc_n, ih]
            rfl
          · by_cases h4 : c = '\r'
            · subst h4
              rw [show escChar '\r' = ['\\', 'r'] from by decide]
              simp only [List.cons_append, List.nil_append]
              rw [psb_esc_r, ih]
              rfl
            · by_cases h5 : c = '\t'
              · subst h5
                rw [show escChar '\t' = ['\\', 't'] from by decide]
                simp only [List.cons_append, List.nil_append]
                rw [psb_esc_t, ih]
                rfl
              · by_cases h6 : c = Char.ofNat 8
                · subst h6
                  rw [show escChar (Char.ofNat 8) = ['\\', 'b'] from by decide]
                  simp only [List.cons_append, List.nil_append]
                  rw [psb_esc_b, ih]
                  rfl
                · by_cases h7 : c = Char.ofNat 12
                  · subst h7
                    rw [show escChar (Char.ofNat 12) = ['\\', 'f'] from by decide]
                    simp only [List.cons_append, List.nil_append]
                    rw [psb_esc_f, ih]
                    rfl
                  · by_cases h8 : c.toNat < 32
                    · rw [show escChar c =
                          ['\\', 'u', '0', '0', hexChar (c.toNat / 16),
                            hexChar (c.toNat % 16)] from by
                        simp [escChar, h1, h2, h3, h4, h5, h6, h7, h8]]
                      simp only [List.cons_append, List.nil_append]
                      rw [psb_esc_u '0' '0' (hexChar (c.toNat / 16))
                        (hexChar (c.toNat % 16)) _ 0 0 (c.toNat / 16) (c.toNat % 16)
                        (by decide) (by decide)
                        (hexChar_spec _ (by omega))
                        (hexChar_spec _ (Nat.mod_lt _ (by omega)))]
                      rw [ih]
                      have hcode : ((0 * 16 + 0) * 16 + c.toNat / 16) * 16 +
                          c.toNat % 16 = c.toNat := by omega
                      rw [hcode, Char.ofNat_toNat]
                      rfl
                    · rw [show escChar c = [c] from by
                        simp [escChar, h1, h2, h3, h4, h5, h6, h7, h8]]
                      simp only [List.cons_append, List.nil_append]
                      rw [psb_plain c _ h1 h2 h8, ih]
                      rfl

theorem skipWs_length_le (l : List Char) : (skipWs l).length ≤ l.length := by
  induction l with
  | nil => simp [skipWs]
  | cons c cs ih =>
      by_cases h : isWsChar c = true
      · rw [skipWs_cons_ws c cs h]
        exact le_trans ih (by simp)
      · rw [skipWs_cons_not_ws c cs (by simpa using h)]

theorem ne_of_digit (c d : Char) (h : isDigitChar c = true)
    (hd : isDigitChar d = false) : c ≠ d := by
  intro hc
  subst hc
  rw [h] at hd
  exact Bool.noConfusion hd

theorem not_ws_of_digit (c : Char) (h : isDigitChar c = true) :
    isWsChar c = false := by
  cases hw : isWsChar c with
  | false => rfl
  | true =>
      exfalso
      have hmem : ((c = ' ' ∨ c = '\t') ∨ c = '\n') ∨ c = '\r' := by
        simpa [isWsChar] using hw
      rcases hmem with ((rfl | rfl) | rfl) | rfl <;> exact absurd h (by decide)

/-- The first character a printed value puts down: never whitespace and
never a closing bracket, so the parser's dispatch always sees the value
itself. -/
theorem printV_head_spec (ind : Nat) (v : Json) :
    ∃ c t, printV ind v = c :: t ∧ isWsChar c = false ∧ c ≠ ']' ∧ c ≠ '}' := by
  have hgood : ∀ c : Char,
      c = 'n' ∨ c = 't' ∨ c = 'f' ∨ c = '"' ∨ c = '[' ∨ c = '{' →
      isWsChar c = false ∧ c ≠ ']' ∧ c ≠ '}' := by
    rintro c (rfl | rfl | rfl | rfl | rfl | rfl) <;>
      refine ⟨by decide, by decide, by decide⟩
  cases v with
  | null => exact ⟨_, _, rfl, hgood 'n' (.inl rfl)⟩
  | bool b =>
      cases b with
      | true => exact ⟨_, _, rfl, hgood 't' (.inr (.inl rfl))⟩
      | false => exact ⟨_, _, rfl, hgood 'f' (.inr (.inr (.inl rfl)))⟩
  | str s => exact ⟨_, _, rfl, hgood '"' (.inr (.inr (.inr (.inl rfl))))⟩
  | num i =>
      show ∃ c t, intToChars i = c :: t ∧ _
      by_cases hneg : i < 0
      · exact ⟨'-', natToChars i.natAbs, by simp [intToChars, hneg], by decide,
          by decide, by decide⟩
      · obtain ⟨hne, hall, -, -, -⟩ := natToChars_spec i.natAbs
        obtain ⟨d, ds, hds⟩ : ∃ d ds, natToChars i.natAbs = d :: ds := by
          cases hh : natToChars i.natAbs with
          | nil => exact absurd hh hne
          | cons d ds => exact ⟨d, ds, rfl⟩
        have hd : isDigitChar d = true := hall d (by rw [hds]; simp)
        refine ⟨d, ds, ?_, not_ws_of_digit d hd, ne_of_digit d ']' hd (by decide),
          ne_of_digit d '}' hd (by decide)⟩
        rw [intToChars, if_neg hneg, hds]
  | arr xs =>
      cases xs with
      | nil => exact ⟨_, _, rfl, hgood '[' (.inr (.inr (.inr (.inr (.inl rfl)))))⟩
      | cons x xs' =>
          exact ⟨_, _, rfl, hgood '[' (.inr (.inr (.inr (.inr (.inl rfl)))))⟩
  | obj fs =>
      cases fs with
      | nil => exact ⟨_, _, rfl, hgood '{' (.inr (.inr (.inr (.inr (.inr rfl)))))⟩
      | cons f fs' =>
          exact ⟨_, _, rfl, hgood '{' (.inr (.inr (.inr (.inr (.inr rfl)))))⟩

theorem objGet_eq_none_of_keyMem_false (k : String)
    (fs : List (String × Json)) (h : keyMem k fs = false) :
    objGet fs k = none := by
  induction fs with
  | nil => rfl
  | cons p rest ih =>
      obtain ⟨k', v'⟩ := p
      simp only [keyMem, Bool.or_eq_false_iff] at h
      simp only [objGet]
      rw [if_neg (by simpa using h.1), ih h.2]

theorem consKey_not_mem (k : String) (v : Json) (fs : List (String × Json))
    (h : keyMem k fs = false) : consKey k v fs = (k, v) :: fs := by
  simp [consKey, objGet_eq_none_of_keyMem_false k fs h]

/-! Step equations of the parser, one per dispatch outcome: each is an
unfolding of one parser step under hypotheses naming the scrutinees'
values, so the induction below can rewrite with them. -/

theorem parseVal_step_null (g : Nat) (cs t : List Char)
    (h : skipWs cs = 'n' :: 'u' :: 'l' :: 'l' :: t) :
    parseVal (g + 1) cs = some (.null, t) := by
  rw [parseVal, h]
  simp

theorem parseVal_step_true (g : Nat) (cs t : List Char)
    (h : skipWs cs = 't' :: 'r' :: 'u' :: 'e' :: t) :
    parseVal (g + 1) cs = some (.bool true, t) := by
  rw [parseVal, h]
  simp

theorem parseVal_step_false (g : Nat) (cs t : List Char)
    (h : skipWs cs = 'f' :: 'a' :: 'l' :: 's' :: 'e' :: t) :
    parseVal (g + 1) cs = some (.bool false, t) := by
  rw [parseVal, h]
  simp

theorem parseVal_step_str (g : Nat) (cs t : List Char)
    (h : skipWs cs = '"' :: t) :
    parseVal (g + 1) cs = (parseStringBody t).map (fun r => (.str ⟨r.1⟩, r.2)) := by
  rw [parseVal, h]
  simp

theorem parseVal_step_arr (g : Nat) (cs t : List Char)
    (h : skipWs cs = '[' :: t) :
    parseVal (g + 1) cs =
      match skipWs t with
      | [] => none
      | c2 :: r2 =>
          if c2 = ']' then some (.arr [], r2)
          else (parseElems g (c2 :: r2)).map (fun r => (.arr r.1, r.2)) := by
  rw [parseVal, h]
  simp

theorem parseVal_step_obj (g : Nat) (cs t : List Char)
    (h : skipWs cs = '{' :: t) :
    parseVal (g + 1) cs =
      match skipWs t with
      | [] => none
      | c2 :: r2 =>
          if c2 = '}' then some (.obj [], r2)
          else (parseFields g (c2 :: r2)).map (fun r => (.obj r.1, r.2)) := by
  rw [parseVal, h]
  simp

theorem parseVal_step_num (g : Nat) (cs t : List Char) (c : Char)
    (h : skipWs cs = c :: t)
    (h1 : c ≠ '"') (h2 : c ≠ '[') (h3 : c ≠ '{') (h4 : c ≠ 'n') (h5 : c ≠ 't')
    (h6 : c ≠ 'f') :
    parseVal (g + 1) cs = parseNumber (c :: t) := by
  rw [parseVal, h]
  simp [h1, h2, h3, h4, h5, h6]

theorem parseElems_step_comma (g : Nat) (cs r r' : List Char) (v : Json)
    (hv : parseVal g cs = some (v, r)) (hr : skipWs r = ',' :: r') :
    parseElems (g + 1) cs = (parseElems g r').map (fun t => (v :: t.1, t.2)) := by
  rw [parseElems, hv]
  simp [hr]

theorem parseElems_step_close (g : Nat) (cs r r' : List Char) (v : Json)
    (hv : parseVal g cs = some (v, r)) (hr : skipWs r = ']' :: r') :
    parseElems (g + 1) cs = some ([v], r') := by
  rw [parseElems, hv]
  simp [hr]

theorem parseFields_step_comma (g : Nat) (cs r r' r'' r3 r4 kd : List Char)
    (v : Json)
    (h1 : skipWs cs = '"' :: r)
    (h2 : parseStringBody r = some (kd, r'))
    (h3 : skipWs r' = ':' :: r'')
    (h4 : parseVal g r'' = some (v, r3))
    (h5 : skipWs r3 = ',' :: r4) :
    parseFields (g + 1) cs =
      (parseFields g r4).map (fun t => (consKey ⟨kd⟩ v t.1, t.2)) := by
  rw [parseFields, h1]
  simp [h2, h3, h4, h5]

theorem parseFields_step_close (g : Nat) (cs r r' r'' r3 r4 kd : List Char)
    (v : Json)
    (h1 : skipWs cs = '"' :: r)
    (h2 : parseStringBody r = some (kd, r'))
    (h3 : skipWs r' = ':' :: r'')
    (h4 : parseVal g r'' = some (v, r3))
    (h5 : skipWs r3 = '}' :: r4) :
    parseFields (g + 1) cs = some ([(⟨kd⟩, v)], r4) := by
  rw [parseFields, h1]
  simp [h2, h3, h4, h5]

theorem skipWs_nl_spaces (n : Nat) (l : List Char) :
    skipWs ('\n' :: (spaces n ++ l)) = skipWs l := by
  rw [skipWs_cons_ws _ _ (by decide), skipWs_spaces_append]

theorem skipWs_printV_append (ind : Nat) (v : Json) (l : List Char) :
    skipWs (printV ind v ++ l) = printV ind v ++ l := by
  obtain ⟨c, t, hct, hws, -, -⟩ := printV_head_spec ind v
  rw [hct, List.cons_append, skipWs_cons_not_ws _ _ hws]

theorem printV_length_pos (ind : Nat) (v : Json) : 1 ≤ (printV ind v).length := by
  obtain ⟨c, t, hct, -, -, -⟩ := printV_head_spec ind v
  rw [hct]
  simp

theorem noDigitHead_elems_tail (i j : Nat) (xs : List Json) (rest : List Char) :
    noDigitHead (printElems i xs ++ ('\n' :: (spaces j ++ (']' :: rest)))) = true := by
  cases xs with
  | nil =>
      simp only [printElems, List.nil_append, noDigitHead]
      decide
  | cons y ys =>
      simp only [printElems, List.cons_append, noDigitHead]
      decide

theorem noDigitHead_fields_tail (i j : Nat) (fs : List (String × Json))
    (rest : List Char) :
    noDigitHead (printFields i fs ++ ('\n' :: (spaces j ++ ('}' :: rest)))) = true := by
  cases fs with
  | nil =>
      simp only [printFields, List.nil_append, noDigitHead]
      decide
  | cons f fs' =>
      simp only [printFields, List.cons_append, noDigitHead]
      decide

mutual

/-- The parser inverts the printer on values: reading the printed form of
a well-formed value consumes exactly it, in any whitespace-lead context
with enough fuel. -/
theorem parseVal_print (v : Json) (ind fuel : Nat) (cs rest : List Char)
    (hwf : wf v = true) (hnd : noDigitHead rest = true)
    (hskip : skipWs cs = printV ind v ++ rest)
    (hlen : cs.length < fuel) :
    parseVal fuel cs = some (v, rest) := by
  obtain ⟨g, rfl⟩ : ∃ g, fuel = g + 1 := ⟨fuel - 1, by omega⟩
  cases hv : v with
  | null =>
      rw [hv] at hskip
      exact parseVal_step_null g cs rest (by simpa [printV] using hskip)
  | bool b =>
      rw [hv] at hskip
      cases b with
      | true => exact parseVal_step_true g cs rest (by simpa [printV] using hskip)
      | false => exact parseVal_step_false g cs rest (by simpa [printV] using hskip)
  | str s =>
      rw [hv] at hskip
      obtain ⟨sd⟩ := s
      rw [parseVal_step_str g cs (escapeChars sd ++ ('"' :: rest))
        (by simpa [printV, List.append_assoc] using hskip)]
      rw [parseStringBody_escape]
      rfl
  | num i =>
      rw [hv] at hskip
      by_cases hneg : i < 0
      · have hskip' : skipWs cs = '-' :: (natToChars i.natAbs ++ rest) := by
          simpa [printV, intToChars, hneg] using hskip
        rw [parseVal_step_num g cs (natToChars i.natAbs ++ rest) '-' hskip'
          (by decide) (by decide) (by decide) (by decide) (by decide) (by decide)]
        have hfold : '-' :: (natToChars i.natAbs ++ rest) = intToChars i ++ rest := by
          simp [intToChars, hneg]
        rw [hfold, parseNumber_print i rest hnd]
      · obtain ⟨hne2, hall, -, -, -⟩ := natToChars_spec i.natAbs
        obtain ⟨d, ds, hds⟩ : ∃ d ds, natToChars i.natAbs = d :: ds := by
          cases hh : natToChars i.natAbs with
          | nil => exact absurd hh hne2
          | cons d ds => exact ⟨d, ds, rfl⟩
        have hd : isDigitChar d = true := hall d (by rw [hds]; simp)
        have hskip' : skipWs cs = d :: (ds ++ rest) := by
          simpa [printV, intToChars, hneg, hds] using hskip
        rw [parseVal_step_num g cs (ds ++ rest) d hskip'
          (ne_of_digit d '"' hd (by decide)) (ne_of_digit d '[' hd (by decide))
          (ne_of_digit d '{' hd (by decide)) (ne_of_digit d 'n' hd (by decide))
          (ne_of_digit d 't' hd (by decide)) (ne_of_digit d 'f' hd (by decide))]
        have hfold : d :: (ds ++ rest) = intToChars i ++ rest := by
          simp [intToChars, hneg, hds]
        rw [hfold, parseNumber_print i rest hnd]
  | arr xs =>
      rw [hv] at hwf hskip
      cases xs with
      | nil =>
          have hskip' : skipWs cs = '[' :: (']' :: rest) := by
            simpa [printV] using hskip
          rw [parseVal_step_arr g cs (']' :: rest) hskip',
            skipWs_cons_not_ws _ _ (by decide)]
          simp
      | cons x xs' =>
          have hwx : wf x = true ∧ wfList xs' = true := by
            have := hwf
            simp only [wf, wfList, Bool.and_eq_true] at this
            exact this
          have hskip' : skipWs cs = '[' :: ('\n' :: (spaces (ind + 2) ++
              (printV (ind + 2) x ++ (printElems (ind + 2) xs' ++
                ('\n' :: (spaces ind ++ (']' :: rest))))))) := by
            simpa [printV, List.append_assoc] using hskip
          rw [parseVal_step_arr g cs _ hskip']
          have hsk2 : skipWs ('\n' :: (spaces (ind + 2) ++
              (printV (ind + 2) x ++ (printElems (ind + 2) xs' ++
                ('\n' :: (spaces ind ++ (']' :: rest))))))) =
              printV (ind + 2) x ++ (printElems (ind + 2) xs' ++
                ('\n' :: (spaces ind ++ (']' :: rest)))) := by
            rw [skipWs_nl_spaces, skipWs_printV_append]
          rw [hsk2]
          obtain ⟨c2, t2, hct2, hws2, hne2, -⟩ := printV_head_spec (ind + 2) x
          rw [hct2, List.cons_append]
          simp only [hne2, if_false, reduceIte]
          rw [← List.cons_append, ← hct2]
          have hlen2 : (printV (ind + 2) x ++ (printElems (ind + 2) xs' ++
              ('\n' :: (spaces ind ++ (']' :: rest))))).length + 1 < g := by
            have hc1 := skipWs_length_le cs
            have hc2 := congrArg List.length hskip'
            simp only [List.length_cons, List.length_append, spaces,
              List.length_replicate] at hc2 ⊢
            omega
          rw [parseElems_print x xs' (ind + 2) ind g _ rest hwx.1 hwx.2
            (skipWs_printV_append _ _ _) hlen2]
          rfl
  | obj fs =>
      rw [hv] at hwf hskip
      cases fs with
      | nil =>
          have hskip' : skipWs cs = '{' :: ('}' :: rest) := by
            simpa [printV] using hskip
          rw [parseVal_step_obj g cs ('}' :: rest) hskip',
            skipWs_cons_not_ws _ _ (by decide)]
          simp
      | cons f fs' =>
          obtain ⟨k, v, hf⟩ : ∃ a b, f = (a, b) := ⟨f.1, f.2, rfl⟩
          rw [hf] at hwf hskip ⊢
          have hwx : (keyMem k fs' = false ∧ wf v = true) ∧ wfFields fs' = true := by
            simpa [wf, wfFields] using hwf
          have hskip' : skipWs cs = '{' :: ('\n' :: (spaces (ind + 2) ++
              (printField (ind + 2) (k, v) ++ (printFields (ind + 2) fs' ++
                ('\n' :: (spaces ind ++ ('}' :: rest))))))) := by
            simpa [printV, List.append_assoc] using hskip
          rw [parseVal_step_obj g cs _ hskip']
          have hsk2 : skipWs ('\n' :: (spaces (ind + 2) ++
              (printField (ind + 2) (k, v) ++ (printFields (ind + 2) fs' ++
                ('\n' :: (spaces ind ++ ('}' :: rest))))))) =
              printField (ind + 2) (k, v) ++ (printFields (ind + 2) fs' ++
                ('\n' :: (spaces ind ++ ('}' :: rest)))) := by
            rw [skipWs_nl_spaces]
            rw [show printField (ind + 2) (k, v) = '"' ::
              (escapeChars k.data ++ ('"' :: ':' :: ' ' :: printV (ind + 2) v))
              from by simp [printField]]
            rw [List.cons_append, skipWs_cons_not_ws _ _ (by decide)]
          rw [hsk2]
          rw [show printField (ind + 2) (k, v) ++ (printFields (ind + 2) fs' ++
              ('\n' :: (spaces ind ++ ('}' :: rest)))) = '"' ::
              ((escapeChars k.data ++ ('"' :: ':' :: ' ' :: printV (ind + 2) v)) ++
                (printFields (ind + 2) fs' ++ ('\n' :: (spaces ind ++ ('}' :: rest)))))
            from by simp [printField]]
          simp only [reduceIte]
          rw [show ('"' : Char) :: ((escapeChars k.data ++
              ('"' :: ':' :: ' ' :: printV (ind + 2) v)) ++
              (printFields (ind + 2) fs' ++ ('\n' :: (spaces ind ++ ('}' :: rest))))) =
              printField (ind + 2) (k, v) ++ (printFields (ind + 2) fs' ++
                ('\n' :: (spaces ind ++ ('}' :: rest))))
            from by simp [printField]]
          have hlen2 : (printField (ind + 2) (k, v) ++ (printFields (ind + 2) fs' ++
              ('\n' :: (spaces ind ++ ('}' :: rest))))).length + 1 < g := by
            have hc1 := skipWs_length_le cs
            have hc2 := congrArg List.length hskip'
            simp only [List.length_cons, List.length_append, spaces,
              List.length_replicate, printField] at hc2 ⊢
            omega
          have hskA : skipWs (printField (ind + 2) (k, v) ++
              (printFields (ind + 2) fs' ++ ('\n' :: (spaces ind ++ ('}' :: rest))))) =
              printField (ind + 2) (k, v) ++ (printFields (ind + 2) fs' ++
                ('\n' :: (spaces ind ++ ('}' :: rest)))) := by
            rw [show printField (ind + 2) (k, v) = '"' ::
              (escapeChars k.data ++ ('"' :: ':' :: ' ' :: printV (ind + 2) v))
              from by simp [printField]]
            rw [List.cons_append, skipWs_cons_not_ws _ _ (by decide)]
          rw [parseFields_print k v fs' (ind + 2) ind g _ rest hwx.1.2 hwx.2
            hwx.1.1 hskA hlen2]
          simp
termination_by sizeOf v
decreasing_by
  all_goals subst_vars
  all_goals simp_wf
  all_goals omega

theorem parseElems_print (x : Json) (xs : List Json) (i j fuel : Nat)
    (cs rest : List Char)
    (hwx : wf x = true) (hwxs : wfList xs = true)
    (hskip : skipWs cs = printV i x ++ (printElems i xs ++
      ('\n' :: (spaces j ++ (']' :: rest)))))
    (hlen : cs.length + 1 < fuel) :
    parseElems fuel cs = some (x :: xs, rest) := by
  obtain ⟨g, rfl⟩ : ∃ g, fuel = g + 1 := ⟨fuel - 1, by omega⟩
  have hval : parseVal g cs = some (x, printElems i xs ++
      ('\n' :: (spaces j ++ (']' :: rest)))) :=
    parseVal_print x i g cs _ hwx (noDigitHead_elems_tail i j xs rest) hskip
      (by omega)
  cases hxs : xs with
  | nil =>
      rw [hxs] at hval
      have hr : skipWs (printElems i ([] : List Json) ++
          ('\n' :: (spaces j ++ (']' :: rest)))) = ']' :: rest := by
        simp only [printElems, List.nil_append]
        rw [skipWs_nl_spaces, skipWs_cons_not_ws _ _ (by decide)]
      exact parseElems_step_close g cs _ rest x hval hr
  | cons y ys =>
      rw [hxs] at hwxs hval hskip
      have hwy : wf y = true ∧ wfList ys = true := by
        simpa [wfList, Bool.and_eq_true] using hwxs
      have hr : skipWs (printElems i (y :: ys) ++
          ('\n' :: (spaces j ++ (']' :: rest)))) = ',' ::
          ('\n' :: (spaces i ++ (printV i y ++ (printElems i ys ++
            ('\n' :: (spaces j ++ (']' :: rest))))))) := by
        simp only [printElems, List.cons_append, List.append_assoc]
        rw [skipWs_cons_not_ws _ _ (by decide)]
      rw [parseElems_step_comma g cs _ _ x hval hr]
      have hskip2 : skipWs ('\n' :: (spaces i ++ (printV i y ++
          (printElems i ys ++ ('\n' :: (spaces j ++ (']' :: rest))))))) =
          printV i y ++ (printElems i ys ++ ('\n' :: (spaces j ++ (']' :: rest)))) := by
        rw [skipWs_nl_spaces, skipWs_printV_append]
      have hlen2 : ('\n' :: (spaces i ++ (printV i y ++ (printElems i ys ++
          ('\n' :: (spaces j ++ (']' :: rest))))))).length + 1 < g := by
        have hc1 := skipWs_length_le cs
        have hc2 := congrArg List.length hskip
        have hp1 := printV_length_pos i x
        simp only [printElems, List.length_cons, List.length_append, spaces,
          List.length_replicate] at hc2 ⊢
        omega
      rw [parseElems_print y ys i j g _ rest hwy.1 hwy.2
        (by rw [skipWs_nl_spaces, skipWs_printV_append]) hlen2]
      rfl
termination_by 1 + sizeOf x + sizeOf xs
decreasing_by
  all_goals subst_vars
  all_goals simp_wf
  all_goals omega

theorem parseFields_print (k : String) (v : Json) (fs : List (String × Json))
    (i j fuel : Nat) (cs rest : List Char)
    (hwv : wf v = true) (hwfs : wfFields fs = true) (hkm : keyMem k fs = false)
    (hskip : skipWs cs = printField i (k, v) ++ (printFields i fs ++
      ('\n' :: (spaces j ++ ('}' :: rest)))))
    (hlen : cs.length + 1 < fuel) :
    parseFields fuel cs = some ((k, v) :: fs, rest) := by
  obtain ⟨g, rfl⟩ : ∃ g, fuel = g + 1 := ⟨fuel - 1, by omega⟩
  obtain ⟨kd⟩ := k
  have hskip1 : skipWs cs = '"' :: (escapeChars kd ++ ('"' ::
      (':' :: ' ' :: printV i v ++ (printFields i fs ++
        ('\n' :: (spaces j ++ ('}' :: rest))))))) := by
    simpa [printField, List.append_assoc] using hskip
  have hsb : parseStringBody (escapeChars kd ++ ('"' ::
      (':' :: ' ' :: printV i v ++ (printFields i fs ++
        ('\n' :: (spaces j ++ ('}' :: rest))))))) =
      some (kd, ':' :: ' ' :: printV i v ++ (printFields i fs ++
        ('\n' :: (spaces j ++ ('}' :: rest))))) :=
    parseStringBody_escape kd _
  have hcol : skipWs (':' :: ' ' :: printV i v ++ (printFields i fs ++
      ('\n' :: (spaces j ++ ('}' :: rest))))) = ':' ::
      (' ' :: printV i v ++ (printFields i fs ++
        ('\n' :: (spaces j ++ ('}' :: rest))))) := by
    rw [List.cons_append, skipWs_cons_not_ws _ _ (by decide)]
  have hval : parseVal g (' ' :: printV i v ++ (printFields i fs ++
      ('\n' :: (spaces j ++ ('}' :: rest))))) =
      some (v, printFields i fs ++ ('\n' :: (spaces j ++ ('}' :: rest)))) := by
    apply parseVal_print v i g _ _ hwv (noDigitHead_fields_tail i j fs rest)
    · rw [List.cons_append, skipWs_cons_ws _ _ (by decide), skipWs_printV_append]
    · have hc1 := skipWs_length_le cs
      have hc2 := congrArg List.length hskip1
      simp only [List.length_cons, List.length_append] at hc2 ⊢
      omega
  cases hfs : fs with
  | nil =>
      rw [hfs] at hskip1 hsb hcol hval
      have hr : skipWs (printFields i ([] : List (String × Json)) ++
          ('\n' :: (spaces j ++ ('}' :: rest)))) = '}' :: rest := by
        simp only [printFields, List.nil_append]
        rw [skipWs_nl_spaces, skipWs_cons_not_ws _ _ (by decide)]
      exact parseFields_step_close g cs _ _ _ _ rest kd v hskip1 hsb hcol hval hr
  | cons f2 fs2 =>
      rw [hfs] at hwfs hkm hskip1 hsb hcol hval
      obtain ⟨k2, v2, hf2⟩ : ∃ a b, f2 = (a, b) := ⟨f2.1, f2.2, rfl⟩
      rw [hf2] at hwfs hkm hskip1 hsb hcol hval ⊢
      have hw2 : (keyMem k2 fs2 = false ∧ wf v2 = true) ∧ wfFields fs2 = true := by
        simpa [wfFields] using hwfs
      have hr : skipWs (printFields i ((k2, v2) :: fs2) ++
          ('\n' :: (spaces j ++ ('}' :: rest)))) = ',' ::
          ('\n' :: (spaces i ++ (printField i (k2, v2) ++ (printFields i fs2 ++
            ('\n' :: (spaces j ++ ('}' :: rest))))))) := by
        simp only [printFields, List.cons_append, List.append_assoc]
        rw [skipWs_cons_not_ws _ _ (by decide)]
      rw [parseFields_step_comma g cs _ _ _ _ _ kd v hskip1 hsb hcol hval hr]
      have hlen2 : ('\n' :: (spaces i ++ (printField i (k2, v2) ++
          (printFields i fs2 ++ ('\n' :: (spaces j ++ ('}' :: rest))))))).length + 1
          < g := by
        have hc1 := skipWs_length_le cs
        have hc2 := congrArg List.length hskip1
        have hp1 := printV_length_pos i v
        simp only [printFields, printField, List.length_cons, List.length_append,
          spaces, List.length_replicate] at hc2 ⊢
        omega
      rw [parseFields_print k2 v2 fs2 i j g _ rest hw2.1.2 hw2.2 hw2.1.1
        (by
          rw [skipWs_nl_spaces]
          rw [show printField i (k2, v2) = '"' ::
            (escapeChars k2.data ++ ('"' :: ':' :: ' ' :: printV i v2))
            from by simp [printField]]
          rw [List.cons_append, skipWs_cons_not_ws _ _ (by decide)])
        hlen2]
      simp only [Option.map_some',
        consKey_not_mem (String.mk kd) v ((k2, v2) :: fs2) hkm]
termination_by 1 + sizeOf k + sizeOf v + sizeOf fs
decreasing_by
  all_goals subst_vars
  all_goals simp_wf
  all_goals omega

end

/-- Parsing the serializer's output of a well-formed value recovers it. -/
theorem parse_stringify (v : Json) (hwf : wf v = true) :
    parse (stringify v) = some v := by
  have hpv : parseVal ((printV 0 v).length + 1) (printV 0 v) = some (v, []) :=
    parseVal_print v 0 _ _ [] hwf rfl
      (by simpa using skipWs_printV_append 0 v []) (by omega)
  have hstep : parse (stringify v) =
      match parseVal ((printV 0 v).length + 1) (printV 0 v) with
      | some (w, rest) => if (skipWs rest).isEmpty then some w else none
      | none => none := rfl
  rw [hstep, hpv]
  simp [skipWs]

/-- C5: for every record-store file whose content is the serializer's
output for some well-formed value v, loadData returns v, saveData v
rewrites byte-identical content, and loading what saveData wrote returns
v again, so repeating the save/load pair changes nothing. -/
theorem record_store_round_trip (v : Json) (content : String)
    (hwf : wf v = true) (hc : content = saveData v) :
    loadData (some content) = some v ∧ saveData v = content ∧
      loadData (some (saveData v)) = some v := by
  have hp : parse (saveData v) = some v := parse_stringify v hwf
  subst hc
  exact ⟨hp, rfl, hp⟩

/-- Witness for C5: the round trip at a one-field record object. -/
theorem record_store_round_trip_witness :
    wf (Json.obj [(String.mk ['i', 'd'], Json.num 7)]) = true ∧
      (loadData (some (saveData (Json.obj [(String.mk ['i', 'd'], Json.num 7)]))) =
          some (Json.obj [(String.mk ['i', 'd'], Json.num 7)]) ∧
        saveData (Json.obj [(String.mk ['i', 'd'], Json.num 7)]) =
          saveData (Json.obj [(String.mk ['i', 'd'], Json.num 7)]) ∧
        loadData (some (saveData (Json.obj [(String.mk ['i', 'd'], Json.num 7)]))) =
          some (Json.obj [(String.mk ['i', 'd'], Json.num 7)])) :=
  ⟨by simp [wf, wfFields, keyMem],
    record_store_round_trip (Json.obj [(String.mk ['i', 'd'], Json.num 7)])
      (saveData (Json.obj [(String.mk ['i', 'd'], Json.num 7)]))
      (by simp [wf, wfFields, keyMem]) rfl⟩

/-- Witness for C8: the three login outcomes at the seeded store. -/
theorem login_spec_witness :
    login cW 0 "nouser" "x" [uW] = .invalidCredentials "username_not_found" ∧
    login cW 0 "admin" "wrong" [uW] = .invalidCredentials "incorrect_password" ∧
    login cW 0 "admin" "admin123" [uW] = .success "L:u1:admin" :=
  ⟨(login_spec cW 0 "nouser" "x" [uW] (by decide) (by decide)).1 (by decide),
   ((login_spec cW 0 "admin" "wrong" [uW] (by decide) (by decide)).2 uW
     (by decide)).1 (by decide),
   ((login_spec cW 0 "admin" "admin123" [uW] (by decide) (by decide)).2 uW
     (by decide)).2 (by decide)⟩

end Portfolio
